import Mathlib

set_option autoImplicit false

/-!
Shallow embedding of the in-memory job queue and its cron processing pass:

* `MemoryQueueService` (src/common/queue/memory.queue.service.ts): a
  `Map<string, Job[]>` with operations `addJob`, `getNextJob`, `dequeueJob`,
  `hasJob`, `updateJob`, `getQueue`, plus the private helpers
  `generateJobId` / `createJob`.
* `CronService.processQueue` (cron service source): an index-based `for`
  loop over the array returned by `getQueue` — the *live* array stored in
  the map, which `dequeueJob` splices in place — dispatching each visited
  job to an external collaborator and reconciling the outcome
  (dequeue on success, decrement-and-update or dequeue on failure).

JavaScript arrays become `List`, the `Map` becomes an association list in
insertion order, `async` methods become pure state-passing functions, and
exceptions thrown by the external dispatch collaborator become a boolean
oracle `disp : JobData → Bool` (`false` = the awaited call raised, which
the `catch` block absorbs; every argument the collaborator receives is a
function of `job.data` alone, so success as a function of `JobData` is
exact).  The SHA-256 hex digest used inside `generateJobId` is kept as an
explicit function parameter `sha`: no claim depends on actual hash values,
only on the id being a deterministic function of queue name and payload.
-/

namespace QueueSpec

/-- Payload record inside `JobData` (`data` field): the union
`UpdateEtaSchoolDto | UpdateLiderSchoolDto | SchoolQueryDto` lives outside
the queue core; the queue itself only ever reads `macAddress` (in
`generateJobId` and in the GET dispatch path) and serializes the whole
record, so the remaining fields are modelled as an opaque serialized
remainder `rest`. -/
structure DataPayload where
  macAddress : String
  rest : String
deriving DecidableEq

/-- JobData (src/common/types/job.data.type.ts): `data`, `targetRequestDomain`
(a `PlatformType` string enum, modelled as `String`), `process`, and the
optional `key`. -/
structure JobData where
  data : DataPayload
  targetRequestDomain : String
  process : String
  key : Option String := none
deriving DecidableEq

/-- Job (src/common/types/job.type.ts): id, data, retries, delay, timestamp.
Numbers are modelled as `Int` for the two caller-supplied counters and `Nat`
for the `Date.now()` timestamp. -/
structure Job where
  id : String
  data : JobData
  retries : Int
  delay : Int
  timestamp : Nat
deriving DecidableEq

/-- Partial<Job> as passed to `updateJob`: each field optionally present. -/
structure PartialJob where
  id : Option String := none
  data : Option JobData := none
  retries : Option Int := none
  delay : Option Int := none
  timestamp : Option Nat := none
deriving DecidableEq

/-- Spread merge `{ ...job, ...partial }` used by `updateJob`. -/
def mergeJob (j : Job) (p : PartialJob) : Job :=
  { id := p.id.getD j.id
    data := p.data.getD j.data
    retries := p.retries.getD j.retries
    delay := p.delay.getD j.delay
    timestamp := p.timestamp.getD j.timestamp }

/-- JSON.stringify of the job data as consumed by `generateJobId`.  The
exact JSON surface syntax is immaterial to every claim (only determinism
matters, the digest is opaque anyway); the encoding below is injective on
the modelled fields and deterministic. -/
def jsonStringify (jd : JobData) : String :=
  jd.data.macAddress ++ "|" ++ jd.data.rest ++ "|" ++ jd.targetRequestDomain
    ++ "|" ++ jd.process ++ (match jd.key with | none => "" | some k => "|key:" ++ k)

/-- generateJobId (memory.queue.service.ts lines 164-170):
`queueName-process-targetRequestDomain-macAddress-sha256(JSON.stringify(jobData))`.
The digest `sha` is an explicit parameter (see file header). -/
def generateJobId (sha : String → String) (queueName : String) (jd : JobData) : String :=
  let jobDataHash := sha (jsonStringify jd)
  queueName ++ "-" ++ jd.process ++ "-" ++ jd.targetRequestDomain ++ "-"
    ++ jd.data.macAddress ++ "-" ++ jobDataHash

/-- createJob (memory.queue.service.ts lines 186-199); `now` stands for
`Date.now()`. -/
def createJob (sha : String → String) (queueName : String) (jd : JobData)
    (retries delay : Int) (now : Nat) : Job :=
  { id := generateJobId sha queueName jd
    data := jd
    retries := retries
    delay := delay
    timestamp := now }

/-- The `Map<string, Job[]>` held by `MemoryQueueService`, as an association
list in insertion order. -/
abbrev Store := List (String × List Job)

/-- Map.get: value of the first (unique) entry with the given key. -/
def mapGet : Store → String → Option (List Job)
  | [], _ => none
  | e :: rest, q => if e.1 == q then some e.2 else mapGet rest q

/-- Map.set: replace the value at an existing key in place, else append. -/
def mapSet : Store → String → List Job → Store
  | [], q, l => [(q, l)]
  | e :: rest, q, l => if e.1 == q then (q, l) :: rest else e :: mapSet rest q l

/-- Map.has. -/
def hasKey (s : Store) (q : String) : Bool :=
  s.any (fun e => e.1 == q)

/-- Observational contents of a named queue: the job list under the key,
empty when the key is absent (an absent key and an empty array are
indistinguishable through the public interface). -/
def lookupQueue (s : Store) (q : String) : List Job :=
  (mapGet s q).getD []

/-- The lazy-initialization half of `getQueue` (lines 212-217): insert an
empty array on first reference. -/
def ensureQueue (s : Store) (q : String) : Store :=
  if hasKey s q then s else mapSet s q []

/-- getQueue (lines 212-217): ensure the queue exists, return the store
together with the (live) array; the `getD []` mirrors the non-null read
after insertion. -/
def getQueue (s : Store) (q : String) : Store × List Job :=
  (ensureQueue s q, lookupQueue (ensureQueue s q) q)

/-- hasJob (lines 114-117): membership by id; goes through `getQueue`, so
it shares its lazy initialization. -/
def hasJob (s : Store) (q jid : String) : Store × Bool :=
  let g := getQueue s q
  (g.1, g.2.any (fun j => j.id == jid))

/-- addJob (lines 32-48): build the job, fetch the queue, no-op when the
content-derived id is already present, else push. -/
def addJob (sha : String → String) (s : Store) (queueName : String) (jd : JobData)
    (retries delay : Int) (now : Nat) : Store :=
  let job := createJob sha queueName jd retries delay now
  let g := getQueue s queueName
  let hb := hasJob g.1 queueName job.id
  if hb.2 then hb.1
  else mapSet hb.1 queueName (g.2 ++ [job])

/-- Effect of `findIndex` + `splice(jobIndex, 1)`: drop the first job whose
id matches: the list-level content of `dequeueJob`. -/
def removeFirstById (jid : String) : List Job → List Job
  | [] => []
  | j :: rest => if j.id == jid then rest else j :: removeFirstById jid rest

/-- dequeueJob (lines 83-100): splice out the first id match if any, else
leave the queue untouched (warning only). -/
def dequeueJob (s : Store) (q jid : String) : Store :=
  let g := getQueue s q
  if g.2.any (fun j => j.id == jid) then mapSet g.1 q (removeFirstById jid g.2)
  else g.1

/-- Effect of `queue[jobIndex] = { ...queue[jobIndex], ...updatedJobData }`
at the first id match: the list-level content of `updateJob`. -/
def updateFirstById (jid : String) (p : PartialJob) : List Job → List Job
  | [] => []
  | j :: rest => if j.id == jid then mergeJob j p :: rest else j :: updateFirstById jid p rest

/-- updateJob (lines 132-150): merge the partial fields into the first id
match in place and return `true`, else return `false` and change nothing. -/
def updateJob (s : Store) (q jid : String) (p : PartialJob) : Store × Bool :=
  let g := getQueue s q
  if g.2.any (fun j => j.id == jid) then (mapSet g.1 q (updateFirstById jid p g.2), true)
  else (g.1, false)

/-- getNextJob (lines 61-70): `queue[0]`, or null when empty. -/
def getNextJob (s : Store) (q : String) : Store × Option Job :=
  let g := getQueue s q
  (g.1, g.2.head?)

/-- QUEUE_NAMES_ENUM.ETA_LIDER_TASK, the single queue the cron pass drains. -/
def mainQueueName : String := "etaLiderTask"

/-- Per-job observable outcome of a dispatch, as logged by the pass:
successful removal, retry scheduled, or dropped after exhaustion. -/
inductive Outcome where
  | success
  | retry
  | dropped
deriving DecidableEq

/-- One `for (let index = 0; index < queue.length; index++)` loop of
`CronService.processQueue`, reading the live array (the store entry for
`mainQueueName`) at every mention of `queue`, exactly as the TypeScript
does.  The pass records one `(job.id, outcome)` event per dispatched job.
Structural recursion on a fuel argument stands in for the loop; the loop
body consumes one unit per iteration and `processLoop_fuel_irrelevant`
below shows any fuel at least `queue.length - index` computes the loop
exactly, so the wrapper `passFrom` (fuel = current length) is the loop. -/
def processLoop (disp : JobData → Bool) : Nat → Store → Nat → Store × List (String × Outcome)
  | 0, s, _ => (s, [])
  | fuel + 1, s, i =>
    let l := lookupQueue s mainQueueName
    if h : i < l.length then
      let j := l.get ⟨i, h⟩
      if disp j.data then
        let r := processLoop disp fuel (dequeueJob s mainQueueName j.id) (i + 1)
        (r.1, (j.id, Outcome.success) :: r.2)
      else if 0 < j.retries then
        let s1 := mapSet s mainQueueName (l.set i { j with retries := j.retries - 1 })
        let s2 := (updateJob s1 mainQueueName j.id { retries := some (j.retries - 1) }).1
        let r := processLoop disp fuel s2 (i + 1)
        (r.1, (j.id, Outcome.retry) :: r.2)
      else
        let r := processLoop disp fuel (dequeueJob s mainQueueName j.id) (i + 1)
        (r.1, (j.id, Outcome.dropped) :: r.2)
    else (s, [])

/-- The processing loop entered at index `i` over the live queue.  The
fuel `(lookupQueue s mainQueueName).length` dominates the remaining
iteration count, so this is the exact loop semantics (see
`processLoop_fuel_irrelevant`). -/
def passFrom (disp : JobData → Bool) (s : Store) (i : Nat) : Store × List (String × Outcome) :=
  processLoop disp (lookupQueue s mainQueueName).length s i

/-- CronService.processQueue (lines 50-106) with its observable dispatch
trace: fetch the live queue, return early when empty, else run the
index-based loop from 0. -/
def processQueueTr (disp : JobData → Bool) (s : Store) : Store × List (String × Outcome) :=
  let g := getQueue s mainQueueName
  if g.2.length = 0 then (g.1, [])
  else passFrom disp g.1 0

/-- Store part of one processing pass. -/
def processQueue (disp : JobData → Bool) (s : Store) : Store :=
  (processQueueTr disp s).1

/-- A public operation of the store, for stating invariants over operation
sequences. -/
inductive QueueOp where
  | add (qn : String) (jd : JobData) (retries delay : Int) (now : Nat)
  | dequeue (qn jid : String)
  | update (qn jid : String) (p : PartialJob)
  | next (qn : String)
  | has (qn jid : String)
deriving DecidableEq

/-- Store effect of one public operation. -/
def applyOp (sha : String → String) (s : Store) : QueueOp → Store
  | .add qn jd r d t => addJob sha s qn jd r d t
  | .dequeue qn jid => dequeueJob s qn jid
  | .update qn jid p => (updateJob s qn jid p).1
  | .next qn => (getNextJob s qn).1
  | .has qn jid => (hasJob s qn jid).1

/-- Run a sequence of public operations from the empty store. -/
def runOps (sha : String → String) (ops : List QueueOp) : Store :=
  ops.foldl (applyOp sha) []

/-- An operation whose partial update never rewrites the `id` field (every
non-update operation qualifies); the repository itself only ever updates
`retries`. -/
def benignOp : QueueOp → Bool
  | .update _ _ p => p.id.isNone
  | _ => true

/-- Two jobs that agree on everything except possibly `delay`. -/
def SameExceptDelay (j k : Job) : Prop :=
  j.id = k.id ∧ j.data = k.data ∧ j.retries = k.retries ∧ j.timestamp = k.timestamp

/-- Two stores whose queues agree pointwise except possibly on the `delay`
field of each job. -/
def StoreSameExceptDelay (s t : Store) : Prop :=
  ∀ q, List.Forall₂ SameExceptDelay (lookupQueue s q) (lookupQueue t q)

/-- Identity function standing in for the SHA-256 hex digest in concrete
runs; no claim depends on digest values. -/
def shaId : String → String := fun s => s

/-- Concrete payload fixture A. -/
def jdA : JobData :=
  { data := { macAddress := "AA:11", rest := "ra" }
    targetRequestDomain := "ETA", process := "GET", key := none }

/-- Concrete payload fixture B. -/
def jdB : JobData :=
  { data := { macAddress := "BB:22", rest := "rb" }
    targetRequestDomain := "LIDER", process := "UPDATE", key := none }

/-- Concrete payload fixture C. -/
def jdC : JobData :=
  { data := { macAddress := "CC:33", rest := "rc" }
    targetRequestDomain := "ETA", process := "UPDATE", key := none }

/-- Concrete payload fixture D. -/
def jdD : JobData :=
  { data := { macAddress := "DD:44", rest := "rd" }
    targetRequestDomain := "LIDER", process := "GET", key := none }

/-- Concrete job fixture with a hand-written id, for store-level contracts. -/
def jobW1 : Job :=
  { id := "w1", data := jdA, retries := 2, delay := 0, timestamp := 0 }

/-- Concrete job fixture with a hand-written id, for store-level contracts. -/
def jobW2 : Job :=
  { id := "w2", data := jdB, retries := 3, delay := 0, timestamp := 0 }

/-!  Basic lemmas about the association-list map and the store operations. -/

theorem lookupQueue_nil (q : String) : lookupQueue [] q = [] := rfl

@[simp] theorem lookupQueue_mapSet_self (s : Store) (q : String) (l : List Job) :
    lookupQueue (mapSet s q l) q = l := by
  induction s with
  | nil => simp [mapSet, lookupQueue, mapGet]
  | cons e rest ih =>
    by_cases h : e.1 = q
    · simp [mapSet, h, lookupQueue, mapGet]
    · simpa [mapSet, h, lookupQueue, mapGet] using ih

@[simp] theorem lookupQueue_mapSet_ne (s : Store) (q : String) (l : List Job)
    (q2 : String) (h : q2 ≠ q) : lookupQueue (mapSet s q l) q2 = lookupQueue s q2 := by
  have hq2 : ¬ (q = q2) := fun hh => h hh.symm
  induction s with
  | nil => simp [mapSet, lookupQueue, mapGet, hq2]
  | cons e rest ih =>
    by_cases he : e.1 = q
    · simp [mapSet, he, lookupQueue, mapGet, hq2]
    · by_cases he2 : e.1 = q2
      · simp [mapSet, he, lookupQueue, mapGet, he2, hq2, h]
      · simpa [mapSet, he, lookupQueue, mapGet, he2] using ih

theorem mapGet_isSome_iff_hasKey (s : Store) (q : String) :
    (mapGet s q).isSome = true ↔ hasKey s q = true := by
  induction s with
  | nil => simp [mapGet, hasKey]
  | cons e rest ih =>
    by_cases he : e.1 = q
    · simp [mapGet, hasKey, he]
    · simpa [mapGet, hasKey, he] using ih

theorem mapGet_eq_none_of_not_hasKey (s : Store) (q : String) (h : ¬ hasKey s q = true) :
    mapGet s q = none := by
  cases hg : mapGet s q with
  | none => rfl
  | some l => exact absurd ((mapGet_isSome_iff_hasKey s q).mp (by simp [hg])) h

theorem ensureQueue_eq_of_hasKey (s : Store) (q : String) (h : hasKey s q = true) :
    ensureQueue s q = s := by
  simp [ensureQueue, h]

@[simp] theorem lookupQueue_ensureQueue (s : Store) (q q2 : String) :
    lookupQueue (ensureQueue s q) q2 = lookupQueue s q2 := by
  unfold ensureQueue
  split
  · rfl
  · next h =>
    by_cases hq : q2 = q
    · subst hq
      rw [lookupQueue_mapSet_self]
      simp [lookupQueue, mapGet_eq_none_of_not_hasKey s q2 h]
    · exact lookupQueue_mapSet_ne s q [] q2 hq

theorem hasKey_of_lookup_ne_nil (s : Store) (q : String) (h : lookupQueue s q ≠ []) :
    hasKey s q = true := by
  by_cases h2 : hasKey s q = true
  · exact h2
  · exact absurd (by simp [lookupQueue, mapGet_eq_none_of_not_hasKey s q h2]) h

@[simp] theorem getQueue_fst (s : Store) (q : String) :
    (getQueue s q).1 = ensureQueue s q := rfl

@[simp] theorem getQueue_snd (s : Store) (q : String) :
    (getQueue s q).2 = lookupQueue s q := by
  show lookupQueue (ensureQueue s q) q = lookupQueue s q
  exact lookupQueue_ensureQueue s q q

theorem removeFirstById_eq_of_not_mem (jid : String) (l : List Job)
    (h : ∀ j ∈ l, ¬ j.id = jid) : removeFirstById jid l = l := by
  induction l with
  | nil => rfl
  | cons j rest ih =>
    have hj : ¬ j.id = jid := h j (by simp)
    rw [removeFirstById, if_neg (by simp [hj])]
    exact congrArg (j :: ·) (ih fun k hk => h k (by simp [hk]))

theorem removeFirstById_sublist (jid : String) (l : List Job) :
    (removeFirstById jid l).Sublist l := by
  induction l with
  | nil => simp [removeFirstById]
  | cons j rest ih =>
    by_cases hj : (j.id == jid) = true
    · rw [removeFirstById, if_pos (by simp [hj])]
      exact List.sublist_cons_self j rest
    · simpa [removeFirstById, hj] using ih.cons₂ j

theorem removeFirstById_length_le (jid : String) (l : List Job) :
    (removeFirstById jid l).length ≤ l.length :=
  (removeFirstById_sublist jid l).length_le

theorem updateFirstById_eq_of_not_mem (jid : String) (p : PartialJob) (l : List Job)
    (h : ∀ j ∈ l, ¬ j.id = jid) : updateFirstById jid p l = l := by
  induction l with
  | nil => rfl
  | cons j rest ih =>
    have hj : ¬ j.id = jid := h j (by simp)
    rw [updateFirstById, if_neg (by simp [hj])]
    exact congrArg (j :: ·) (ih fun k hk => h k (by simp [hk]))

@[simp] theorem updateFirstById_length (jid : String) (p : PartialJob) (l : List Job) :
    (updateFirstById jid p l).length = l.length := by
  induction l with
  | nil => rfl
  | cons j rest ih =>
    by_cases hj : (j.id == jid) = true
    · simp [updateFirstById, hj]
    · simp [updateFirstById, hj, ih]

theorem mergeJob_id_of_none (j : Job) (p : PartialJob) (h : p.id = none) :
    (mergeJob j p).id = j.id := by
  simp [mergeJob, h]

theorem updateFirstById_map_id (jid : String) (p : PartialJob) (l : List Job)
    (h : p.id = none) :
    (updateFirstById jid p l).map Job.id = l.map Job.id := by
  induction l with
  | nil => rfl
  | cons j rest ih =>
    by_cases hj : (j.id == jid) = true
    · simp [updateFirstById, hj, mergeJob_id_of_none j p h]
    · simp [updateFirstById, hj, ih]

theorem lookupQueue_dequeueJob_self (s : Store) (q jid : String) :
    lookupQueue (dequeueJob s q jid) q = removeFirstById jid (lookupQueue s q) := by
  unfold dequeueJob
  simp only [getQueue_fst, getQueue_snd]
  split
  · rw [lookupQueue_mapSet_self]
  · next h =>
    rw [lookupQueue_ensureQueue,
      removeFirstById_eq_of_not_mem jid _ (by simpa [List.any_eq_false] using h)]

theorem lookupQueue_dequeueJob_ne (s : Store) (q jid q2 : String) (h : q2 ≠ q) :
    lookupQueue (dequeueJob s q jid) q2 = lookupQueue s q2 := by
  unfold dequeueJob
  simp only [getQueue_fst, getQueue_snd]
  split
  · rw [lookupQueue_mapSet_ne _ _ _ _ h, lookupQueue_ensureQueue]
  · rw [lookupQueue_ensureQueue]

theorem lookupQueue_updateJob_self (s : Store) (q jid : String) (p : PartialJob) :
    lookupQueue (updateJob s q jid p).1 q = updateFirstById jid p (lookupQueue s q) := by
  unfold updateJob
  simp only [getQueue_fst, getQueue_snd]
  split
  · rw [lookupQueue_mapSet_self]
  · next h =>
    rw [lookupQueue_ensureQueue,
      updateFirstById_eq_of_not_mem jid p _ (by simpa [List.any_eq_false] using h)]

theorem lookupQueue_updateJob_ne (s : Store) (q jid : String) (p : PartialJob)
    (q2 : String) (h : q2 ≠ q) :
    lookupQueue (updateJob s q jid p).1 q2 = lookupQueue s q2 := by
  unfold updateJob
  simp only [getQueue_fst, getQueue_snd]
  split
  · rw [lookupQueue_mapSet_ne _ _ _ _ h, lookupQueue_ensureQueue]
  · rw [lookupQueue_ensureQueue]

theorem updateJob_snd (s : Store) (q jid : String) (p : PartialJob) :
    (updateJob s q jid p).2 = (lookupQueue s q).any (fun j => j.id == jid) := by
  unfold updateJob
  simp only [getQueue_fst, getQueue_snd]
  split
  · next h => exact h.symm
  · next h =>
    have h2 : ((lookupQueue s q).any fun j => j.id == jid) = false := by
      cases hb : (lookupQueue s q).any fun j => j.id == jid
      · rfl
      · exact absurd hb h
    exact h2.symm

theorem lookupQueue_addJob_self (sha : String → String) (s : Store) (qn : String)
    (jd : JobData) (r d : Int) (t : Nat) :
    lookupQueue (addJob sha s qn jd r d t) qn =
      if (lookupQueue s qn).any (fun j => j.id == generateJobId sha qn jd) then
        lookupQueue s qn
      else lookupQueue s qn ++ [createJob sha qn jd r d t] := by
  unfold addJob hasJob
  simp only [getQueue_fst, getQueue_snd, lookupQueue_ensureQueue]
  have hid : (createJob sha qn jd r d t).id = generateJobId sha qn jd := rfl
  rw [hid]
  split
  · next h => simp [h]
  · next h => rw [lookupQueue_mapSet_self]

theorem lookupQueue_addJob_ne (sha : String → String) (s : Store) (qn : String)
    (jd : JobData) (r d : Int) (t : Nat) (q2 : String) (h : q2 ≠ qn) :
    lookupQueue (addJob sha s qn jd r d t) q2 = lookupQueue s q2 := by
  unfold addJob hasJob
  simp only [getQueue_fst, getQueue_snd]
  split
  · simp
  · rw [lookupQueue_mapSet_ne _ _ _ _ h]
    simp

theorem getNextJob_fst_lookup (s : Store) (q q2 : String) :
    lookupQueue (getNextJob s q).1 q2 = lookupQueue s q2 := by
  unfold getNextJob
  simp

theorem getNextJob_snd (s : Store) (q : String) :
    (getNextJob s q).2 = (lookupQueue s q).head? := by
  unfold getNextJob
  simp

theorem hasJob_fst_lookup (s : Store) (q jid q2 : String) :
    lookupQueue (hasJob s q jid).1 q2 = lookupQueue s q2 := by
  unfold hasJob
  simp

/-!  Positional helper lemmas used by the pass analysis. -/

theorem take_eraseIdx_of_le {α : Type} (l : List α) (i k : Nat) (h : i ≤ k) :
    (l.eraseIdx k).take i = l.take i := by
  induction l generalizing i k with
  | nil => simp [List.eraseIdx]
  | cons a rest ih =>
    cases i with
    | zero => simp
    | succ m =>
      cases k with
      | zero => omega
      | succ k2 =>
        simp only [List.eraseIdx, List.take_succ_cons]
        rw [ih m k2 (by omega)]

theorem take_set_of_le {α : Type} (l : List α) (i k : Nat) (x : α) (h : i ≤ k) :
    (l.set k x).take i = l.take i := by
  induction l generalizing i k with
  | nil => simp
  | cons a rest ih =>
    cases i with
    | zero => simp
    | succ m =>
      cases k with
      | zero => omega
      | succ k2 =>
        simp only [List.set, List.take_succ_cons]
        rw [ih m k2 (by omega)]

theorem map_eraseIdx {α β : Type} (f : α → β) (l : List α) (i : Nat) :
    (l.eraseIdx i).map f = (l.map f).eraseIdx i := by
  induction l generalizing i with
  | nil => simp [List.eraseIdx]
  | cons a rest ih =>
    cases i with
    | zero => simp [List.eraseIdx]
    | succ m => simp [List.eraseIdx, ih]

theorem nodup_get_not_mem_eraseIdx {α : Type} (l : List α) (hl : l.Nodup)
    (i : Nat) (h : i < l.length) : l.get ⟨i, h⟩ ∉ l.eraseIdx i := by
  induction l generalizing i with
  | nil => simp at h
  | cons a rest ih =>
    cases i with
    | zero =>
      simp only [List.eraseIdx, List.get_cons_zero]
      exact (List.nodup_cons.mp hl).1
    | succ m =>
      simp only [List.eraseIdx, List.get_cons_succ, List.mem_cons]
      push_neg
      refine ⟨?_, ih (List.nodup_cons.mp hl).2 m (by simpa using h)⟩
      intro he
      exact (List.nodup_cons.mp hl).1 (he ▸ List.get_mem rest m _)

theorem map_id_set_same (l : List Job) (k : Nat) (x : Job) (hk : k < l.length)
    (h : x.id = (l.get ⟨k, hk⟩).id) : (l.set k x).map Job.id = l.map Job.id := by
  induction l generalizing k with
  | nil => simp
  | cons j rest ih =>
    cases k with
    | zero => simpa using h
    | succ m =>
      simp only [List.set, List.map_cons, List.cons.injEq, true_and]
      exact ih m (by simpa using hk) (by simpa using h)

theorem map_id_set_retry (l : List Job) (k : Nat) (j : Job) (r : Int)
    (hk : k < l.length) (h : j.id = (l.get ⟨k, hk⟩).id) :
    (l.set k { j with retries := r }).map Job.id = l.map Job.id :=
  map_id_set_same l k { j with retries := r } hk h

theorem removeFirstById_nodup_get (l : List Job) (hnd : (l.map Job.id).Nodup)
    (k : Nat) (hk : k < l.length) :
    removeFirstById (l.get ⟨k, hk⟩).id l = l.eraseIdx k := by
  induction l generalizing k with
  | nil => simp at hk
  | cons j rest ih =>
    rw [List.map_cons, List.nodup_cons] at hnd
    cases k with
    | zero =>
      rw [removeFirstById, if_pos (by simp)]
      rfl
    | succ m =>
      have hm : m < rest.length := by simpa using hk
      have hne : ¬ j.id = (rest.get ⟨m, hm⟩).id := by
        intro he
        exact hnd.1 (by
          rw [he]
          exact List.mem_map.mpr ⟨rest.get ⟨m, hm⟩, List.get_mem rest m hm, rfl⟩)
      simp only [List.get_cons_succ]
      rw [removeFirstById, if_neg (by simpa using hne)]
      rw [ih hnd.2 m hm]
      rfl

theorem updateFirstById_nodup_get (p : PartialJob) (l : List Job)
    (hnd : (l.map Job.id).Nodup) (k : Nat) (hk : k < l.length) :
    updateFirstById (l.get ⟨k, hk⟩).id p l = l.set k (mergeJob (l.get ⟨k, hk⟩) p) := by
  induction l generalizing k with
  | nil => simp at hk
  | cons j rest ih =>
    rw [List.map_cons, List.nodup_cons] at hnd
    cases k with
    | zero =>
      rw [updateFirstById, if_pos (by simp)]
      rfl
    | succ m =>
      have hm : m < rest.length := by simpa using hk
      have hne : ¬ j.id = (rest.get ⟨m, hm⟩).id := by
        intro he
        exact hnd.1 (by
          rw [he]
          exact List.mem_map.mpr ⟨rest.get ⟨m, hm⟩, List.get_mem rest m hm, rfl⟩)
      simp only [List.get_cons_succ]
      rw [updateFirstById, if_neg (by simpa using hne)]
      rw [ih hnd.2 m hm]
      rfl

theorem updateFirstById_getElem? (jid : String) (p : PartialJob) (l : List Job)
    (k : Nat) :
    (updateFirstById jid p l)[k]? =
      if l.findIdx (fun j => j.id == jid) = k then (l[k]?).map (fun j => mergeJob j p)
      else l[k]? := by
  induction l generalizing k with
  | nil => simp [updateFirstById]
  | cons j rest ih =>
    by_cases hj : j.id = jid
    · have hu : updateFirstById jid p (j :: rest) = mergeJob j p :: rest := by
        rw [updateFirstById, if_pos (by simp [hj])]
      have hf : (j :: rest).findIdx (fun j => j.id == jid) = 0 := by
        have hjb : (j.id == jid) = true := by simp [hj]
        simp [List.findIdx_cons, hjb]
      cases k with
      | zero => simp [hu, hf]
      | succ m =>
        rw [hu, hf, if_neg (by omega)]
        simp
    · have hu : updateFirstById jid p (j :: rest) = j :: updateFirstById jid p rest := by
        rw [updateFirstById, if_neg (by simp [hj])]
      have hf : (j :: rest).findIdx (fun j => j.id == jid) =
          rest.findIdx (fun j => j.id == jid) + 1 := by
        have hjb : (j.id == jid) = false := by simp [hj]
        simp [List.findIdx_cons, hjb]
      cases k with
      | zero =>
        rw [hu, hf, if_neg (by omega)]
        simp
      | succ m =>
        rw [hu, hf]
        simp only [List.getElem?_cons_succ]
        rw [ih m]
        by_cases hfm : rest.findIdx (fun j => j.id == jid) = m
        · rw [if_pos hfm, if_pos (by omega)]
        · rw [if_neg hfm, if_neg (by omega)]

/-!  Unfolding and invariance lemmas for the processing loop. -/

theorem processLoop_zero (disp : JobData → Bool) (s : Store) (i : Nat) :
    processLoop disp 0 s i = (s, []) := rfl

theorem processLoop_done (disp : JobData → Bool) (fuel : Nat) (s : Store) (i : Nat)
    (h : ¬ i < (lookupQueue s mainQueueName).length) :
    processLoop disp (fuel + 1) s i = (s, []) := by
  rw [processLoop]
  exact dif_neg h

theorem processLoop_step (disp : JobData → Bool) (fuel : Nat) (s : Store) (i : Nat)
    (h : i < (lookupQueue s mainQueueName).length) :
    processLoop disp (fuel + 1) s i =
      (if disp ((lookupQueue s mainQueueName).get ⟨i, h⟩).data then
        ((processLoop disp fuel
            (dequeueJob s mainQueueName ((lookupQueue s mainQueueName).get ⟨i, h⟩).id)
            (i + 1)).1,
          (((lookupQueue s mainQueueName).get ⟨i, h⟩).id, Outcome.success) ::
            (processLoop disp fuel
              (dequeueJob s mainQueueName ((lookupQueue s mainQueueName).get ⟨i, h⟩).id)
              (i + 1)).2)
      else if 0 < ((lookupQueue s mainQueueName).get ⟨i, h⟩).retries then
        ((processLoop disp fuel
            (updateJob
              (mapSet s mainQueueName ((lookupQueue s mainQueueName).set i
                { (lookupQueue s mainQueueName).get ⟨i, h⟩ with
                    retries := ((lookupQueue s mainQueueName).get ⟨i, h⟩).retries - 1 }))
              mainQueueName ((lookupQueue s mainQueueName).get ⟨i, h⟩).id
              { retries := some (((lookupQueue s mainQueueName).get ⟨i, h⟩).retries - 1) }).1
            (i + 1)).1,
          (((lookupQueue s mainQueueName).get ⟨i, h⟩).id, Outcome.retry) ::
            (processLoop disp fuel
              (updateJob
                (mapSet s mainQueueName ((lookupQueue s mainQueueName).set i
                  { (lookupQueue s mainQueueName).get ⟨i, h⟩ with
                      retries := ((lookupQueue s mainQueueName).get ⟨i, h⟩).retries - 1 }))
                mainQueueName ((lookupQueue s mainQueueName).get ⟨i, h⟩).id
                { retries := some (((lookupQueue s mainQueueName).get ⟨i, h⟩).retries - 1) }).1
              (i + 1)).2)
      else
        ((processLoop disp fuel
            (dequeueJob s mainQueueName ((lookupQueue s mainQueueName).get ⟨i, h⟩).id)
            (i + 1)).1,
          (((lookupQueue s mainQueueName).get ⟨i, h⟩).id, Outcome.dropped) ::
            (processLoop disp fuel
              (dequeueJob s mainQueueName ((lookupQueue s mainQueueName).get ⟨i, h⟩).id)
              (i + 1)).2)) := by
  rw [processLoop]
  exact dif_pos h

theorem lookupQueue_retry_store (s : Store) (i : Nat) (j : Job) :
    lookupQueue
      ((updateJob
        (mapSet s mainQueueName ((lookupQueue s mainQueueName).set i
          { j with retries := j.retries - 1 }))
        mainQueueName j.id { retries := some (j.retries - 1) }).1) mainQueueName =
      updateFirstById j.id { retries := some (j.retries - 1) }
        ((lookupQueue s mainQueueName).set i { j with retries := j.retries - 1 }) := by
  rw [lookupQueue_updateJob_self, lookupQueue_mapSet_self]

theorem lookupQueue_retry_store_ne (s : Store) (i : Nat) (j : Job) (q : String)
    (h : q ≠ mainQueueName) :
    lookupQueue
      ((updateJob
        (mapSet s mainQueueName ((lookupQueue s mainQueueName).set i
          { j with retries := j.retries - 1 }))
        mainQueueName j.id { retries := some (j.retries - 1) }).1) q = lookupQueue s q := by
  rw [lookupQueue_updateJob_ne _ _ _ _ _ h, lookupQueue_mapSet_ne _ _ _ _ h]

theorem processLoop_fuel_irrelevant (disp : JobData → Bool) (f1 : Nat) :
    ∀ (f2 : Nat) (s : Store) (i : Nat),
      (lookupQueue s mainQueueName).length - i ≤ f1 →
      (lookupQueue s mainQueueName).length - i ≤ f2 →
      processLoop disp f1 s i = processLoop disp f2 s i := by
  induction f1 with
  | zero =>
    intro f2 s i h1 h2
    cases f2 with
    | zero => rfl
    | succ g =>
      rw [processLoop_zero, processLoop_done disp g s i (by omega)]
  | succ f ih =>
    intro f2 s i h1 h2
    by_cases h : i < (lookupQueue s mainQueueName).length
    · cases f2 with
      | zero => omega
      | succ g =>
        rw [processLoop_step disp f s i h, processLoop_step disp g s i h]
        by_cases hd : disp ((lookupQueue s mainQueueName).get ⟨i, h⟩).data
        · rw [if_pos hd, if_pos hd]
          have hlen : (lookupQueue (dequeueJob s mainQueueName
              ((lookupQueue s mainQueueName).get ⟨i, h⟩).id) mainQueueName).length ≤
              (lookupQueue s mainQueueName).length := by
            rw [lookupQueue_dequeueJob_self]
            exact removeFirstById_length_le _ _
          rw [ih g _ (i + 1) (by omega) (by omega)]
        · rw [if_neg hd, if_neg hd]
          by_cases hr : 0 < ((lookupQueue s mainQueueName).get ⟨i, h⟩).retries
          · rw [if_pos hr, if_pos hr]
            have hlen : (lookupQueue
                ((updateJob
                  (mapSet s mainQueueName ((lookupQueue s mainQueueName).set i
                    { (lookupQueue s mainQueueName).get ⟨i, h⟩ with
                        retries := ((lookupQueue s mainQueueName).get ⟨i, h⟩).retries - 1 }))
                  mainQueueName ((lookupQueue s mainQueueName).get ⟨i, h⟩).id
                  { retries := some (((lookupQueue s mainQueueName).get ⟨i, h⟩).retries - 1) }).1)
                mainQueueName).length = (lookupQueue s mainQueueName).length := by
              rw [lookupQueue_retry_store]
              simp
            rw [ih g _ (i + 1) (by omega) (by omega)]
          · rw [if_neg hr, if_neg hr]
            have hlen : (lookupQueue (dequeueJob s mainQueueName
                ((lookupQueue s mainQueueName).get ⟨i, h⟩).id) mainQueueName).length ≤
                (lookupQueue s mainQueueName).length := by
              rw [lookupQueue_dequeueJob_self]
              exact removeFirstById_length_le _ _
            rw [ih g _ (i + 1) (by omega) (by omega)]
    · cases f2 with
      | zero => rw [processLoop_zero, processLoop_done disp f s i h]
      | succ g => rw [processLoop_done disp f s i h, processLoop_done disp g s i h]

theorem processLoop_frame (disp : JobData → Bool) (fuel : Nat) :
    ∀ (s : Store) (i : Nat) (q : String), q ≠ mainQueueName →
      lookupQueue (processLoop disp fuel s i).1 q = lookupQueue s q := by
  induction fuel with
  | zero =>
    intro s i q hq
    rw [processLoop_zero]
  | succ f ih =>
    intro s i q hq
    by_cases h : i < (lookupQueue s mainQueueName).length
    · rw [processLoop_step disp f s i h]
      by_cases hd : disp ((lookupQueue s mainQueueName).get ⟨i, h⟩).data
      · rw [if_pos hd]
        simp only
        rw [ih _ (i + 1) q hq, lookupQueue_dequeueJob_ne _ _ _ _ hq]
      · rw [if_neg hd]
        by_cases hr : 0 < ((lookupQueue s mainQueueName).get ⟨i, h⟩).retries
        · rw [if_pos hr]
          simp only
          rw [ih _ (i + 1) q hq, lookupQueue_retry_store_ne _ _ _ _ hq]
        · rw [if_neg hr]
          simp only
          rw [ih _ (i + 1) q hq, lookupQueue_dequeueJob_ne _ _ _ _ hq]
    · rw [processLoop_done disp f s i h]

theorem mergeJob_retry_patch (j : Job) (r : Int) :
    mergeJob { j with retries := r } { retries := some r } = { j with retries := r } := rfl

theorem retry_list_eq (l : List Job) (hnd : (l.map Job.id).Nodup) (i : Nat)
    (hi : i < l.length) :
    updateFirstById (l.get ⟨i, hi⟩).id
        { retries := some ((l.get ⟨i, hi⟩).retries - 1) }
        (l.set i { l.get ⟨i, hi⟩ with retries := (l.get ⟨i, hi⟩).retries - 1 }) =
      l.set i { l.get ⟨i, hi⟩ with retries := (l.get ⟨i, hi⟩).retries - 1 } := by
  have hi2 : i < (l.set i { l.get ⟨i, hi⟩ with retries := (l.get ⟨i, hi⟩).retries - 1 }).length := by
    simpa using hi
  have hnd2 : ((l.set i { l.get ⟨i, hi⟩ with retries := (l.get ⟨i, hi⟩).retries - 1 }).map
      Job.id).Nodup := by
    rw [map_id_set_retry l i (l.get ⟨i, hi⟩) ((l.get ⟨i, hi⟩).retries - 1) hi rfl]
    exact hnd
  have hget : (l.set i { l.get ⟨i, hi⟩ with retries := (l.get ⟨i, hi⟩).retries - 1 }).get
      ⟨i, hi2⟩ = { l.get ⟨i, hi⟩ with retries := (l.get ⟨i, hi⟩).retries - 1 } := by
    simp
  have h := updateFirstById_nodup_get
    { retries := some ((l.get ⟨i, hi⟩).retries - 1) }
    (l.set i { l.get ⟨i, hi⟩ with retries := (l.get ⟨i, hi⟩).retries - 1 }) hnd2 i hi2
  rw [hget] at h
  rw [h, mergeJob_retry_patch, List.set_set]

theorem nodup_ids_dequeue (l : List Job) (hnd : (l.map Job.id).Nodup) (i : Nat)
    (hi : i < l.length) :
    ((removeFirstById (l.get ⟨i, hi⟩).id l).map Job.id).Nodup := by
  rw [removeFirstById_nodup_get l hnd i hi, map_eraseIdx]
  exact ((List.map Job.id l).eraseIdx_sublist i).nodup hnd

theorem processLoop_map_id_sublist (disp : JobData → Bool) (fuel : Nat) :
    ∀ (s : Store) (i : Nat),
      ((lookupQueue (processLoop disp fuel s i).1 mainQueueName).map Job.id).Sublist
        ((lookupQueue s mainQueueName).map Job.id) := by
  induction fuel with
  | zero =>
    intro s i
    rw [processLoop_zero]
  | succ f ih =>
    intro s i
    by_cases h : i < (lookupQueue s mainQueueName).length
    · rw [processLoop_step disp f s i h]
      by_cases hd : disp ((lookupQueue s mainQueueName).get ⟨i, h⟩).data
      · rw [if_pos hd]
        refine (ih _ (i + 1)).trans ?_
        rw [lookupQueue_dequeueJob_self]
        exact (removeFirstById_sublist _ _).map Job.id
      · rw [if_neg hd]
        by_cases hr : 0 < ((lookupQueue s mainQueueName).get ⟨i, h⟩).retries
        · rw [if_pos hr]
          refine (ih _ (i + 1)).trans ?_
          rw [lookupQueue_retry_store,
            updateFirstById_map_id _ _ _ rfl,
            map_id_set_retry _ i _ _ h rfl]
        · rw [if_neg hr]
          refine (ih _ (i + 1)).trans ?_
          rw [lookupQueue_dequeueJob_self]
          exact (removeFirstById_sublist _ _).map Job.id
    · rw [processLoop_done disp f s i h]

theorem processLoop_trace_mem (disp : JobData → Bool) (fuel : Nat) :
    ∀ (s : Store) (i : Nat) (e : String × Outcome),
      e ∈ (processLoop disp fuel s i).2 →
      e.1 ∈ (lookupQueue s mainQueueName).map Job.id := by
  induction fuel with
  | zero =>
    intro s i e he
    rw [processLoop_zero] at he
    simp at he
  | succ f ih =>
    intro s i e he
    by_cases h : i < (lookupQueue s mainQueueName).length
    · rw [processLoop_step disp f s i h] at he
      by_cases hd : disp ((lookupQueue s mainQueueName).get ⟨i, h⟩).data
      · rw [if_pos hd] at he
        rcases List.mem_cons.mp he with he | he
        · rw [he]
          exact List.mem_map.mpr ⟨_, List.get_mem _ i h, rfl⟩
        · have := ih _ (i + 1) e he
          rw [lookupQueue_dequeueJob_self] at this
          exact ((removeFirstById_sublist _ _).map Job.id).subset this
      · rw [if_neg hd] at he
        by_cases hr : 0 < ((lookupQueue s mainQueueName).get ⟨i, h⟩).retries
        · rw [if_pos hr] at he
          rcases List.mem_cons.mp he with he | he
          · rw [he]
            exact List.mem_map.mpr ⟨_, List.get_mem _ i h, rfl⟩
          · have := ih _ (i + 1) e he
            rw [lookupQueue_retry_store,
              updateFirstById_map_id _ _ _ rfl,
              map_id_set_retry _ i _ _ h rfl] at this
            exact this
        · rw [if_neg hr] at he
          rcases List.mem_cons.mp he with he | he
          · rw [he]
            exact List.mem_map.mpr ⟨_, List.get_mem _ i h, rfl⟩
          · have := ih _ (i + 1) e he
            rw [lookupQueue_dequeueJob_self] at this
            exact ((removeFirstById_sublist _ _).map Job.id).subset this
    · rw [processLoop_done disp f s i h] at he
      simp at he

theorem processLoop_take (disp : JobData → Bool) (fuel : Nat) :
    ∀ (s : Store) (i : Nat), ((lookupQueue s mainQueueName).map Job.id).Nodup →
      (lookupQueue (processLoop disp fuel s i).1 mainQueueName).take i =
        (lookupQueue s mainQueueName).take i := by
  induction fuel with
  | zero =>
    intro s i _
    rw [processLoop_zero]
  | succ f ih =>
    intro s i hnd
    by_cases h : i < (lookupQueue s mainQueueName).length
    · rw [processLoop_step disp f s i h]
      by_cases hd : disp ((lookupQueue s mainQueueName).get ⟨i, h⟩).data
      · rw [if_pos hd]
        simp only
        have hlook : lookupQueue (dequeueJob s mainQueueName
            ((lookupQueue s mainQueueName).get ⟨i, h⟩).id) mainQueueName =
            (lookupQueue s mainQueueName).eraseIdx i := by
          rw [lookupQueue_dequeueJob_self, removeFirstById_nodup_get _ hnd i h]
        have hnd2 : ((lookupQueue (dequeueJob s mainQueueName
            ((lookupQueue s mainQueueName).get ⟨i, h⟩).id) mainQueueName).map Job.id).Nodup := by
          rw [lookupQueue_dequeueJob_self]
          exact nodup_ids_dequeue _ hnd i h
        have e1 : (lookupQueue (processLoop disp f (dequeueJob s mainQueueName
            ((lookupQueue s mainQueueName).get ⟨i, h⟩).id) (i + 1)).1 mainQueueName).take i =
            ((lookupQueue (processLoop disp f (dequeueJob s mainQueueName
              ((lookupQueue s mainQueueName).get ⟨i, h⟩).id) (i + 1)).1
              mainQueueName).take (i + 1)).take i := by
          rw [List.take_take]
          congr 1
          omega
        rw [e1, ih _ (i + 1) hnd2, hlook, List.take_take]
        have e2 : i ⊓ (i + 1) = i := by omega
        rw [e2, take_eraseIdx_of_le _ i i (le_refl i)]
      · rw [if_neg hd]
        by_cases hr : 0 < ((lookupQueue s mainQueueName).get ⟨i, h⟩).retries
        · rw [if_pos hr]
          simp only
          have hlook : lookupQueue
              ((updateJob
                (mapSet s mainQueueName ((lookupQueue s mainQueueName).set i
                  { (lookupQueue s mainQueueName).get ⟨i, h⟩ with
                      retries := ((lookupQueue s mainQueueName).get ⟨i, h⟩).retries - 1 }))
                mainQueueName ((lookupQueue s mainQueueName).get ⟨i, h⟩).id
                { retries := some (((lookupQueue s mainQueueName).get ⟨i, h⟩).retries - 1) }).1)
              mainQueueName =
              (lookupQueue s mainQueueName).set i
                { (lookupQueue s mainQueueName).get ⟨i, h⟩ with
                    retries := ((lookupQueue s mainQueueName).get ⟨i, h⟩).retries - 1 } := by
            rw [lookupQueue_retry_store, retry_list_eq _ hnd i h]
          have hnd2 : ((lookupQueue
              ((updateJob
                (mapSet s mainQueueName ((lookupQueue s mainQueueName).set i
                  { (lookupQueue s mainQueueName).get ⟨i, h⟩ with
                      retries := ((lookupQueue s mainQueueName).get ⟨i, h⟩).retries - 1 }))
                mainQueueName ((lookupQueue s mainQueueName).get ⟨i, h⟩).id
                { retries := some (((lookupQueue s mainQueueName).get ⟨i, h⟩).retries - 1) }).1)
              mainQueueName).map Job.id).Nodup := by
            rw [hlook, map_id_set_retry _ i _ _ h rfl]
            exact hnd
          have e1 : (lookupQueue (processLoop disp f
              ((updateJob
                (mapSet s mainQueueName ((lookupQueue s mainQueueName).set i
                  { (lookupQueue s mainQueueName).get ⟨i, h⟩ with
                      retries := ((lookupQueue s mainQueueName).get ⟨i, h⟩).retries - 1 }))
                mainQueueName ((lookupQueue s mainQueueName).get ⟨i, h⟩).id
                { retries := some (((lookupQueue s mainQueueName).get ⟨i, h⟩).retries - 1) }).1)
              (i + 1)).1 mainQueueName).take i =
              ((lookupQueue (processLoop disp f
                ((updateJob
                  (mapSet s mainQueueName ((lookupQueue s mainQueueName).set i
                    { (lookupQueue s mainQueueName).get ⟨i, h⟩ with
                        retries := ((lookupQueue s mainQueueName).get ⟨i, h⟩).retries - 1 }))
                  mainQueueName ((lookupQueue s mainQueueName).get ⟨i, h⟩).id
                  { retries := some (((lookupQueue s mainQueueName).get ⟨i, h⟩).retries
                      - 1) }).1)
                (i + 1)).1 mainQueueName).take (i + 1)).take i := by
            rw [List.take_take]
            congr 1
            omega
          rw [e1, ih _ (i + 1) hnd2, hlook, List.take_take]
          have e2 : i ⊓ (i + 1) = i := by omega
          rw [e2, take_set_of_le _ i i _ (le_refl i)]
        · rw [if_neg hr]
          simp only
          have hlook : lookupQueue (dequeueJob s mainQueueName
              ((lookupQueue s mainQueueName).get ⟨i, h⟩).id) mainQueueName =
              (lookupQueue s mainQueueName).eraseIdx i := by
            rw [lookupQueue_dequeueJob_self, removeFirstById_nodup_get _ hnd i h]
          have hnd2 : ((lookupQueue (dequeueJob s mainQueueName
              ((lookupQueue s mainQueueName).get ⟨i, h⟩).id) mainQueueName).map
              Job.id).Nodup := by
            rw [lookupQueue_dequeueJob_self]
            exact nodup_ids_dequeue _ hnd i h
          have e1 : (lookupQueue (processLoop disp f (dequeueJob s mainQueueName
              ((lookupQueue s mainQueueName).get ⟨i, h⟩).id) (i + 1)).1 mainQueueName).take i =
              ((lookupQueue (processLoop disp f (dequeueJob s mainQueueName
                ((lookupQueue s mainQueueName).get ⟨i, h⟩).id) (i + 1)).1
                mainQueueName).take (i + 1)).take i := by
            rw [List.take_take]
            congr 1
            omega
          rw [e1, ih _ (i + 1) hnd2, hlook, List.take_take]
          have e2 : i ⊓ (i + 1) = i := by omega
          rw [e2, take_eraseIdx_of_le _ i i (le_refl i)]
    · rw [processLoop_done disp f s i h]

/-!  The processing pass never reads the `delay` field: relational lemmas. -/

theorem sed_removeFirstById (jid : String) {l l2 : List Job}
    (h : List.Forall₂ SameExceptDelay l l2) :
    List.Forall₂ SameExceptDelay (removeFirstById jid l) (removeFirstById jid l2) := by
  induction h with
  | nil => exact List.Forall₂.nil
  | cons hjk htail ih =>
    next j k ls ks =>
      by_cases hj : j.id = jid
      · rw [removeFirstById, if_pos (by simp [hj]), removeFirstById,
          if_pos (by simp [← hjk.1, hj])]
        exact htail
      · rw [removeFirstById, if_neg (by simp [hj]), removeFirstById,
          if_neg (by simp [← hjk.1, hj])]
        exact List.Forall₂.cons hjk ih

theorem sed_set {l l2 : List Job} (h : List.Forall₂ SameExceptDelay l l2)
    {x y : Job} (hxy : SameExceptDelay x y) :
    ∀ i, List.Forall₂ SameExceptDelay (l.set i x) (l2.set i y) := by
  induction h with
  | nil => intro i; exact List.Forall₂.nil
  | cons hjk htail ih =>
    intro i
    cases i with
    | zero => exact List.Forall₂.cons hxy htail
    | succ m => exact List.Forall₂.cons hjk (ih m)

theorem sed_mergeJob_retries {j k : Job} (h : SameExceptDelay j k) (r : Int) :
    SameExceptDelay (mergeJob j { retries := some r })
      (mergeJob k { retries := some r }) := by
  exact ⟨h.1, h.2.1, rfl, h.2.2.2⟩

theorem sed_updateFirst_retries (jid : String) (r : Int) {l l2 : List Job}
    (h : List.Forall₂ SameExceptDelay l l2) :
    List.Forall₂ SameExceptDelay (updateFirstById jid { retries := some r } l)
      (updateFirstById jid { retries := some r } l2) := by
  induction h with
  | nil => exact List.Forall₂.nil
  | cons hjk htail ih =>
    next j k ls ks =>
      by_cases hj : j.id = jid
      · rw [updateFirstById, if_pos (by simp [hj]), updateFirstById,
          if_pos (by simp [← hjk.1, hj])]
        exact List.Forall₂.cons (sed_mergeJob_retries hjk r) htail
      · rw [updateFirstById, if_neg (by simp [hj]), updateFirstById,
          if_neg (by simp [← hjk.1, hj])]
        exact List.Forall₂.cons hjk ih

theorem processLoop_delay_agnostic (disp : JobData → Bool) (fuel : Nat) :
    ∀ (s t : Store) (i : Nat),
      List.Forall₂ SameExceptDelay (lookupQueue s mainQueueName)
        (lookupQueue t mainQueueName) →
      List.Forall₂ SameExceptDelay
          (lookupQueue (processLoop disp fuel s i).1 mainQueueName)
          (lookupQueue (processLoop disp fuel t i).1 mainQueueName)
        ∧ (processLoop disp fuel s i).2 = (processLoop disp fuel t i).2 := by
  induction fuel with
  | zero =>
    intro s t i h
    rw [processLoop_zero, processLoop_zero]
    exact ⟨h, rfl⟩
  | succ f ih =>
    intro s t i h
    have hlen := h.length_eq
    by_cases hi : i < (lookupQueue s mainQueueName).length
    · have hi2 : i < (lookupQueue t mainQueueName).length := by omega
      rw [processLoop_step disp f s i hi, processLoop_step disp f t i hi2]
      have hsed := (List.forall₂_iff_get.mp h).2 i hi hi2
      have hid := hsed.1
      have hdata := hsed.2.1
      have hret := hsed.2.2.1
      by_cases hd : disp ((lookupQueue s mainQueueName).get ⟨i, hi⟩).data
      · rw [if_pos hd, if_pos (show disp ((lookupQueue t mainQueueName).get
            ⟨i, hi2⟩).data = true by rw [← hdata]; exact hd)]
        have hrel2 : List.Forall₂ SameExceptDelay
            (lookupQueue (dequeueJob s mainQueueName
              ((lookupQueue s mainQueueName).get ⟨i, hi⟩).id) mainQueueName)
            (lookupQueue (dequeueJob t mainQueueName
              ((lookupQueue t mainQueueName).get ⟨i, hi2⟩).id) mainQueueName) := by
          rw [lookupQueue_dequeueJob_self, lookupQueue_dequeueJob_self, ← hid]
          exact sed_removeFirstById _ h
        obtain ⟨ih1, ih2⟩ := ih _ _ (i + 1) hrel2
        exact ⟨ih1, congrArg₂ (fun a b => (a, Outcome.success) :: b) hid ih2⟩
      · rw [if_neg hd, if_neg (show ¬ disp ((lookupQueue t mainQueueName).get
            ⟨i, hi2⟩).data = true by rw [← hdata]; exact hd)]
        by_cases hr : 0 < ((lookupQueue s mainQueueName).get ⟨i, hi⟩).retries
        · rw [if_pos hr, if_pos (show 0 < ((lookupQueue t mainQueueName).get
              ⟨i, hi2⟩).retries by rw [← hret]; exact hr)]
          have hrel2 : List.Forall₂ SameExceptDelay
              (lookupQueue
                ((updateJob
                  (mapSet s mainQueueName ((lookupQueue s mainQueueName).set i
                    { (lookupQueue s mainQueueName).get ⟨i, hi⟩ with
                        retries := ((lookupQueue s mainQueueName).get ⟨i, hi⟩).retries - 1 }))
                  mainQueueName ((lookupQueue s mainQueueName).get ⟨i, hi⟩).id
                  { retries := some (((lookupQueue s mainQueueName).get ⟨i, hi⟩).retries
                      - 1) }).1) mainQueueName)
              (lookupQueue
                ((updateJob
                  (mapSet t mainQueueName ((lookupQueue t mainQueueName).set i
                    { (lookupQueue t mainQueueName).get ⟨i, hi2⟩ with
                        retries := ((lookupQueue t mainQueueName).get ⟨i, hi2⟩).retries - 1 }))
                  mainQueueName ((lookupQueue t mainQueueName).get ⟨i, hi2⟩).id
                  { retries := some (((lookupQueue t mainQueueName).get ⟨i, hi2⟩).retries
                      - 1) }).1) mainQueueName) := by
            rw [lookupQueue_retry_store, lookupQueue_retry_store, ← hid, ← hret]
            refine sed_updateFirst_retries _ _ (sed_set h ?_ i)
            exact ⟨rfl, hdata, rfl, hsed.2.2.2⟩
          obtain ⟨ih1, ih2⟩ := ih _ _ (i + 1) hrel2
          exact ⟨ih1, congrArg₂ (fun a b => (a, Outcome.retry) :: b) hid ih2⟩
        · rw [if_neg hr, if_neg (show ¬ 0 < ((lookupQueue t mainQueueName).get
              ⟨i, hi2⟩).retries by rw [← hret]; exact hr)]
          have hrel2 : List.Forall₂ SameExceptDelay
              (lookupQueue (dequeueJob s mainQueueName
                ((lookupQueue s mainQueueName).get ⟨i, hi⟩).id) mainQueueName)
              (lookupQueue (dequeueJob t mainQueueName
                ((lookupQueue t mainQueueName).get ⟨i, hi2⟩).id) mainQueueName) := by
            rw [lookupQueue_dequeueJob_self, lookupQueue_dequeueJob_self, ← hid]
            exact sed_removeFirstById _ h
          obtain ⟨ih1, ih2⟩ := ih _ _ (i + 1) hrel2
          exact ⟨ih1, congrArg₂ (fun a b => (a, Outcome.dropped) :: b) hid ih2⟩
    · have hi2 : ¬ i < (lookupQueue t mainQueueName).length := by omega
      rw [processLoop_done disp f s i hi, processLoop_done disp f t i hi2]
      exact ⟨h, rfl⟩

/-!  A full pass over a single-job queue whose dispatch fails. -/

theorem processLoop_singleton_fail (disp : JobData → Bool) (u : Store) (j : Job)
    (hq : lookupQueue u mainQueueName = [j]) (hfail : disp j.data = false) :
    lookupQueue (processLoop disp 1 u 0).1 mainQueueName =
      if 0 < j.retries then [{ j with retries := j.retries - 1 }] else [] := by
  have h0 : 0 < (lookupQueue u mainQueueName).length := by rw [hq]; simp
  have hget : (lookupQueue u mainQueueName).get ⟨0, h0⟩ = j := by simp [hq]
  rw [processLoop_step disp 0 u 0 h0, hget]
  rw [if_neg (by simp [hfail])]
  by_cases hr : 0 < j.retries
  · rw [if_pos hr, if_pos hr]
    simp only [processLoop_zero]
    rw [lookupQueue_retry_store, hq]
    show updateFirstById j.id { retries := some (j.retries - 1) }
        [{ j with retries := j.retries - 1 }] = [{ j with retries := j.retries - 1 }]
    rw [updateFirstById, if_pos (by simp)]
    rw [mergeJob_retry_patch]
  · rw [if_neg hr, if_neg hr]
    simp only [processLoop_zero]
    rw [lookupQueue_dequeueJob_self, hq, removeFirstById, if_pos (by simp)]

theorem pass_singleton_fail (disp : JobData → Bool) (s : Store) (j : Job)
    (hq : lookupQueue s mainQueueName = [j]) (hfail : disp j.data = false) :
    lookupQueue (processQueue disp s) mainQueueName =
      if 0 < j.retries then [{ j with retries := j.retries - 1 }] else [] := by
  unfold processQueue processQueueTr passFrom
  simp only [getQueue_fst, getQueue_snd]
  rw [if_neg (by rw [hq]; simp)]
  have hq2 : lookupQueue (ensureQueue s mainQueueName) mainQueueName = [j] := by
    rw [lookupQueue_ensureQueue, hq]
  rw [hq2]
  simp only [List.length_cons, List.length_nil]
  exact processLoop_singleton_fail disp (ensureQueue s mainQueueName) j hq2 hfail

/-!  Idempotent enqueue: supporting lemmas. -/

theorem createJob_id (sha : String → String) (qn : String) (jd : JobData)
    (r d : Int) (t : Nat) :
    (createJob sha qn jd r d t).id = generateJobId sha qn jd := rfl

theorem addJob_id_present (sha : String → String) (s : Store) (qn : String)
    (jd : JobData) (r d : Int) (t : Nat) :
    (lookupQueue (addJob sha s qn jd r d t) qn).any
      (fun j => j.id == generateJobId sha qn jd) = true := by
  rw [lookupQueue_addJob_self]
  split
  · next h => exact h
  · next h =>
    rw [List.any_append]
    have : ([createJob sha qn jd r d t].any fun j => j.id == generateJobId sha qn jd)
        = true := by simp [createJob_id]
    rw [this, Bool.or_true]

theorem addJob_noop_of_present (sha : String → String) (s : Store) (qn : String)
    (jd : JobData) (r d : Int) (t : Nat)
    (h : (lookupQueue s qn).any (fun j => j.id == generateJobId sha qn jd) = true) :
    addJob sha s qn jd r d t = s := by
  have hne : lookupQueue s qn ≠ [] := by
    intro he
    rw [he] at h
    simp at h
  have hk : hasKey s qn = true := hasKey_of_lookup_ne_nil s qn hne
  unfold addJob hasJob
  simp only [getQueue_fst, getQueue_snd, lookupQueue_ensureQueue]
  simp only [ensureQueue_eq_of_hasKey s qn hk, createJob_id]
  rw [if_pos h]

/-!  Unique-id invariant machinery over public operation sequences. -/

theorem applyOp_preserves_nodup (sha : String → String) (s : Store) (op : QueueOp)
    (hb : benignOp op = true)
    (h : ∀ q, ((lookupQueue s q).map Job.id).Nodup) :
    ∀ q, ((lookupQueue (applyOp sha s op) q).map Job.id).Nodup := by
  cases op with
  | add qn jd r d t =>
    intro q
    show ((lookupQueue (addJob sha s qn jd r d t) q).map Job.id).Nodup
    by_cases hq : q = qn
    · subst hq
      rw [lookupQueue_addJob_self]
      split
      · exact h q
      · next hany =>
        have hfalse : ((lookupQueue s q).any
            fun j => j.id == generateJobId sha q jd) = false := by
          cases hx : (lookupQueue s q).any fun j => j.id == generateJobId sha q jd
          · rfl
          · exact absurd hx hany
        rw [List.map_append]
        refine List.nodup_append.mpr ⟨h q, by simp, ?_⟩
        intro a ha hmem
        rcases List.mem_map.mp ha with ⟨jx, hjx, hjid⟩
        have hne := List.any_eq_false.mp hfalse jx hjx
        simp only [List.map_cons, List.map_nil, List.mem_singleton, createJob_id] at hmem
        rw [hmem] at hjid
        exact hne (by simp [hjid])
    · rw [lookupQueue_addJob_ne _ _ _ _ _ _ _ _ hq]
      exact h q
  | dequeue qn jid =>
    intro q
    show ((lookupQueue (dequeueJob s qn jid) q).map Job.id).Nodup
    by_cases hq : q = qn
    · subst hq
      rw [lookupQueue_dequeueJob_self]
      exact ((removeFirstById_sublist jid _).map Job.id).nodup (h q)
    · rw [lookupQueue_dequeueJob_ne _ _ _ _ hq]
      exact h q
  | update qn jid p =>
    have hpid : p.id = none := by
      simpa [benignOp, Option.isNone_iff_eq_none] using hb
    intro q
    show ((lookupQueue (updateJob s qn jid p).1 q).map Job.id).Nodup
    by_cases hq : q = qn
    · subst hq
      rw [lookupQueue_updateJob_self, updateFirstById_map_id _ _ _ hpid]
      exact h q
    · rw [lookupQueue_updateJob_ne _ _ _ _ _ hq]
      exact h q
  | next qn =>
    intro q
    show ((lookupQueue (getNextJob s qn).1 q).map Job.id).Nodup
    rw [getNextJob_fst_lookup]
    exact h q
  | has qn jid =>
    intro q
    show ((lookupQueue (hasJob s qn jid).1 q).map Job.id).Nodup
    rw [hasJob_fst_lookup]
    exact h q

theorem foldl_preserves_nodup (sha : String → String) :
    ∀ (ops : List QueueOp) (s : Store), ops.all benignOp = true →
      (∀ q, ((lookupQueue s q).map Job.id).Nodup) →
      ∀ q, ((lookupQueue (ops.foldl (applyOp sha) s) q).map Job.id).Nodup := by
  intro ops
  induction ops with
  | nil =>
    intro s _ h
    exact h
  | cons op rest ih =>
    intro s hb h
    rw [List.all_cons, Bool.and_eq_true] at hb
    rw [List.foldl_cons]
    exact ih (applyOp sha s op) hb.2 (applyOp_preserves_nodup sha s op hb.1 h)

theorem lookupQueue_singleton (qn : String) (l : List Job) (q : String) :
    lookupQueue [(qn, l)] q = if qn = q then l else [] := by
  by_cases h : qn = q <;> simp [lookupQueue, mapGet, h]

/-!  Claim theorems. -/

/-- C10: `getNextJob` is a pure read: it returns the head (oldest, front of
the FIFO) of the queue, returns `none` exactly when the queue is empty, and
leaves every queue of the store unchanged (the lazily created empty entry
for an absent name is observationally invisible: every lookup is
unchanged). -/
theorem c10_getNextJob_pure_head (s : Store) (q : String) :
    (getNextJob s q).2 = (lookupQueue s q).head?
    ∧ ((getNextJob s q).2 = none ↔ lookupQueue s q = [])
    ∧ ∀ q2, lookupQueue (getNextJob s q).1 q2 = lookupQueue s q2 := by
  refine ⟨getNextJob_snd s q, ?_, fun q2 => getNextJob_fst_lookup s q q2⟩
  rw [getNextJob_snd]
  exact List.head?_eq_none_iff

/-- C10 witness: on a concrete two-job store, `getNextJob` returns the
first-enqueued job. -/
theorem c10_witness :
    (getNextJob [(mainQueueName, [jobW1, jobW2])] mainQueueName).2 = some jobW1 :=
  ((c10_getNextJob_pure_head [(mainQueueName, [jobW1, jobW2])] mainQueueName).1).trans
    (by decide)

/-- C7: `updateJob` returns `true` exactly when a job with the id is present;
on `false` the store is unchanged; other queues are never touched; the
queue keeps its length; and position by position the queue is unchanged
except at the first index whose job carries the id, which receives the
merged job (so the updated job keeps its position). -/
theorem c7_updateJob_contract (s : Store) (qn jid : String) (p : PartialJob) :
    ((updateJob s qn jid p).2 = true ↔ ∃ j ∈ lookupQueue s qn, j.id = jid)
    ∧ ((updateJob s qn jid p).2 = false →
        ∀ q, lookupQueue (updateJob s qn jid p).1 q = lookupQueue s q)
    ∧ (∀ q, q ≠ qn → lookupQueue (updateJob s qn jid p).1 q = lookupQueue s q)
    ∧ (lookupQueue (updateJob s qn jid p).1 qn).length = (lookupQueue s qn).length
    ∧ (∀ k : Nat, (lookupQueue (updateJob s qn jid p).1 qn)[k]? =
        if (lookupQueue s qn).findIdx (fun j => j.id == jid) = k then
          ((lookupQueue s qn)[k]?).map (fun j => mergeJob j p)
        else (lookupQueue s qn)[k]?) := by
  refine ⟨?_, ?_, ?_, ?_, ?_⟩
  · rw [updateJob_snd]
    simp [List.any_eq_true]
  · intro hfound q
    have hfalse : (lookupQueue s qn).any (fun j => j.id == jid) = false := by
      rw [← updateJob_snd]
      exact hfound
    unfold updateJob
    simp only [getQueue_fst, getQueue_snd]
    rw [if_neg (by simp [hfalse])]
    simp
  · intro q hq
    exact lookupQueue_updateJob_ne s qn jid p q hq
  · rw [lookupQueue_updateJob_self]
    simp
  · intro k
    rw [lookupQueue_updateJob_self]
    exact updateFirstById_getElem? jid p _ k

/-- C7 witness: a concrete store where the job is found and `updateJob`
reports success. -/
theorem c7_witness :
    (updateJob [(mainQueueName, [jobW1, jobW2])] mainQueueName "w2"
      { retries := some 7 }).2 = true :=
  (c7_updateJob_contract [(mainQueueName, [jobW1, jobW2])] mainQueueName "w2"
    { retries := some 7 }).1.mpr ⟨jobW2, by decide, by decide⟩

/-- C5: enqueueing the same payload twice (whatever the retries, delay and
timestamp arguments of either call are) leaves the store exactly as after
the first call — the second call is a no-op because the content-derived id
is already present — and from the empty store the queue then holds exactly
one job. -/
theorem c5_idempotent_enqueue (sha : String → String) (s : Store) (qn : String)
    (jd : JobData) (r1 d1 : Int) (t1 : Nat) (r2 d2 : Int) (t2 : Nat) :
    addJob sha (addJob sha s qn jd r1 d1 t1) qn jd r2 d2 t2 = addJob sha s qn jd r1 d1 t1
    ∧ (lookupQueue (addJob sha (addJob sha [] qn jd r1 d1 t1) qn jd r2 d2 t2) qn).length
        = 1 := by
  have hnoop : ∀ (u : Store),
      addJob sha (addJob sha u qn jd r1 d1 t1) qn jd r2 d2 t2 =
        addJob sha u qn jd r1 d1 t1 := fun u =>
    addJob_noop_of_present sha _ qn jd r2 d2 t2 (addJob_id_present sha u qn jd r1 d1 t1)
  refine ⟨hnoop s, ?_⟩
  rw [hnoop [], lookupQueue_addJob_self, lookupQueue_nil]
  rw [if_neg (by simp)]
  simp

/-- C9: the scheduledDelay (`delay`) field is never consulted by the
processing pass: over two stores that agree except on the `delay` field of
their jobs, a pass emits the same dispatch trace (same jobs, same order,
same outcomes) and leaves stores that again agree except on `delay`. -/
theorem c9_delay_never_consulted (disp : JobData → Bool) (s t : Store)
    (h : StoreSameExceptDelay s t) :
    (processQueueTr disp s).2 = (processQueueTr disp t).2
    ∧ StoreSameExceptDelay (processQueueTr disp s).1 (processQueueTr disp t).1 := by
  have hQ := h mainQueueName
  have hlen := hQ.length_eq
  unfold processQueueTr passFrom
  simp only [getQueue_fst, getQueue_snd]
  by_cases hz : (lookupQueue s mainQueueName).length = 0
  · rw [if_pos hz, if_pos (by omega)]
    refine ⟨rfl, ?_⟩
    intro q
    simp only [lookupQueue_ensureQueue]
    exact h q
  · rw [if_neg hz, if_neg (by omega)]
    have hQ2 : List.Forall₂ SameExceptDelay
        (lookupQueue (ensureQueue s mainQueueName) mainQueueName)
        (lookupQueue (ensureQueue t mainQueueName) mainQueueName) := by
      simp only [lookupQueue_ensureQueue]
      exact hQ
    have hlen2 : (lookupQueue (ensureQueue t mainQueueName) mainQueueName).length =
        (lookupQueue (ensureQueue s mainQueueName) mainQueueName).length := by
      simp only [lookupQueue_ensureQueue]
      omega
    rw [hlen2]
    obtain ⟨h1, h2⟩ := processLoop_delay_agnostic disp
      (lookupQueue (ensureQueue s mainQueueName) mainQueueName).length
      (ensureQueue s mainQueueName) (ensureQueue t mainQueueName) 0 hQ2
    refine ⟨h2, ?_⟩
    intro q
    by_cases hq : q = mainQueueName
    · subst hq
      exact h1
    · rw [processLoop_frame disp _ _ 0 q hq, processLoop_frame disp _ _ 0 q hq]
      simp only [lookupQueue_ensureQueue]
      exact h q

/-- C9 witness: two singleton stores differing only in a job's delay give
the same trace and delay-equivalent final queues. -/
theorem c9_witness :
    (processQueueTr (fun _ => true) [(mainQueueName, [jobW1])]).2 =
      (processQueueTr (fun _ => true) [(mainQueueName, [{ jobW1 with delay := 7 }])]).2
    ∧ List.Forall₂ SameExceptDelay
        (lookupQueue (processQueueTr (fun _ => true)
          [(mainQueueName, [jobW1])]).1 mainQueueName)
        (lookupQueue (processQueueTr (fun _ => true)
          [(mainQueueName, [{ jobW1 with delay := 7 }])]).1 mainQueueName) := by
  have h : StoreSameExceptDelay [(mainQueueName, [jobW1])]
      [(mainQueueName, [{ jobW1 with delay := 7 }])] := by
    intro q
    rw [lookupQueue_singleton, lookupQueue_singleton]
    by_cases hq : mainQueueName = q
    · rw [if_pos hq, if_pos hq]
      exact List.Forall₂.cons ⟨rfl, rfl, rfl, rfl⟩ List.Forall₂.nil
    · rw [if_neg hq, if_neg hq]
      exact List.Forall₂.nil
  exact ⟨(c9_delay_never_consulted (fun _ => true) _ _ h).1,
    (c9_delay_never_consulted (fun _ => true) _ _ h).2 mainQueueName⟩

/-- C4: when the dispatch of the job at the current index of a pass fails
(and the queue's ids are distinct, the store invariant): if the job still
has retries left, the pass continues from exactly the store produced by
`updateJob` with `retries` decremented by one (recording a retry event),
and the decremented job is still in the queue when the pass ends; if its
retries are exhausted (`retries = 0`), the pass continues from the store
produced by `dequeueJob` (recording a dropped event), the job's id is gone
from the final queue, and the job is dispatched exactly once during the
remainder of the pass (the failing dispatch itself). -/
theorem c4_failure_retry_or_drop (disp : JobData → Bool) (s : Store) (i : Nat)
    (h : i < (lookupQueue s mainQueueName).length)
    (hnd : ((lookupQueue s mainQueueName).map Job.id).Nodup)
    (hfail : disp ((lookupQueue s mainQueueName).get ⟨i, h⟩).data = false) :
    (0 < ((lookupQueue s mainQueueName).get ⟨i, h⟩).retries →
      passFrom disp s i =
        ((passFrom disp
            ((updateJob
              (mapSet s mainQueueName ((lookupQueue s mainQueueName).set i
                { (lookupQueue s mainQueueName).get ⟨i, h⟩ with
                    retries := ((lookupQueue s mainQueueName).get ⟨i, h⟩).retries - 1 }))
              mainQueueName ((lookupQueue s mainQueueName).get ⟨i, h⟩).id
              { retries := some (((lookupQueue s mainQueueName).get ⟨i, h⟩).retries
                  - 1) }).1)
            (i + 1)).1,
          (((lookupQueue s mainQueueName).get ⟨i, h⟩).id, Outcome.retry) ::
            (passFrom disp
              ((updateJob
                (mapSet s mainQueueName ((lookupQueue s mainQueueName).set i
                  { (lookupQueue s mainQueueName).get ⟨i, h⟩ with
                      retries := ((lookupQueue s mainQueueName).get ⟨i, h⟩).retries - 1 }))
                mainQueueName ((lookupQueue s mainQueueName).get ⟨i, h⟩).id
                { retries := some (((lookupQueue s mainQueueName).get ⟨i, h⟩).retries
                    - 1) }).1)
              (i + 1)).2)
      ∧ { (lookupQueue s mainQueueName).get ⟨i, h⟩ with
            retries := ((lookupQueue s mainQueueName).get ⟨i, h⟩).retries - 1 } ∈
          lookupQueue (passFrom disp s i).1 mainQueueName)
    ∧ (((lookupQueue s mainQueueName).get ⟨i, h⟩).retries = 0 →
      passFrom disp s i =
        ((passFrom disp (dequeueJob s mainQueueName
            ((lookupQueue s mainQueueName).get ⟨i, h⟩).id) (i + 1)).1,
          (((lookupQueue s mainQueueName).get ⟨i, h⟩).id, Outcome.dropped) ::
            (passFrom disp (dequeueJob s mainQueueName
              ((lookupQueue s mainQueueName).get ⟨i, h⟩).id) (i + 1)).2)
      ∧ ((lookupQueue s mainQueueName).get ⟨i, h⟩).id ∉
          (lookupQueue (passFrom disp s i).1 mainQueueName).map Job.id
      ∧ (passFrom disp s i).2.countP
          (fun e => e.1 == ((lookupQueue s mainQueueName).get ⟨i, h⟩).id) = 1) := by
  obtain ⟨f, hf⟩ : ∃ f, (lookupQueue s mainQueueName).length = f + 1 :=
    ⟨(lookupQueue s mainQueueName).length - 1, by omega⟩
  have hgetid : (List.map Job.id (lookupQueue s mainQueueName)).get
      ⟨i, by simpa using h⟩ = ((lookupQueue s mainQueueName).get ⟨i, h⟩).id := by
    simp
  have hnid : ((lookupQueue s mainQueueName).get ⟨i, h⟩).id ∉
      (List.map Job.id (lookupQueue s mainQueueName)).eraseIdx i := by
    rw [← hgetid]
    exact nodup_get_not_mem_eraseIdx _ hnd i (by simpa using h)
  constructor
  · intro hr
    have hstep : passFrom disp s i =
        ((processLoop disp f
            ((updateJob
              (mapSet s mainQueueName ((lookupQueue s mainQueueName).set i
                { (lookupQueue s mainQueueName).get ⟨i, h⟩ with
                    retries := ((lookupQueue s mainQueueName).get ⟨i, h⟩).retries - 1 }))
              mainQueueName ((lookupQueue s mainQueueName).get ⟨i, h⟩).id
              { retries := some (((lookupQueue s mainQueueName).get ⟨i, h⟩).retries
                  - 1) }).1)
            (i + 1)).1,
          (((lookupQueue s mainQueueName).get ⟨i, h⟩).id, Outcome.retry) ::
            (processLoop disp f
              ((updateJob
                (mapSet s mainQueueName ((lookupQueue s mainQueueName).set i
                  { (lookupQueue s mainQueueName).get ⟨i, h⟩ with
                      retries := ((lookupQueue s mainQueueName).get ⟨i, h⟩).retries - 1 }))
                mainQueueName ((lookupQueue s mainQueueName).get ⟨i, h⟩).id
                { retries := some (((lookupQueue s mainQueueName).get ⟨i, h⟩).retries
                    - 1) }).1)
              (i + 1)).2) := by
      have hstep0 : passFrom disp s i = processLoop disp (f + 1) s i :=
        processLoop_fuel_irrelevant disp (lookupQueue s mainQueueName).length (f + 1)
          s i (by omega) (by omega)
      rw [hstep0, processLoop_step disp f s i h,
        if_neg (by simp only [List.get_eq_getElem] at hfail; simp [hfail]),
        if_pos hr]
    have hs2 : lookupQueue
        ((updateJob
          (mapSet s mainQueueName ((lookupQueue s mainQueueName).set i
            { (lookupQueue s mainQueueName).get ⟨i, h⟩ with
                retries := ((lookupQueue s mainQueueName).get ⟨i, h⟩).retries - 1 }))
          mainQueueName ((lookupQueue s mainQueueName).get ⟨i, h⟩).id
          { retries := some (((lookupQueue s mainQueueName).get ⟨i, h⟩).retries
              - 1) }).1) mainQueueName =
        (lookupQueue s mainQueueName).set i
          { (lookupQueue s mainQueueName).get ⟨i, h⟩ with
              retries := ((lookupQueue s mainQueueName).get ⟨i, h⟩).retries - 1 } := by
      rw [lookupQueue_retry_store, retry_list_eq _ hnd i h]
    have hlen2 : (lookupQueue
        ((updateJob
          (mapSet s mainQueueName ((lookupQueue s mainQueueName).set i
            { (lookupQueue s mainQueueName).get ⟨i, h⟩ with
                retries := ((lookupQueue s mainQueueName).get ⟨i, h⟩).retries - 1 }))
          mainQueueName ((lookupQueue s mainQueueName).get ⟨i, h⟩).id
          { retries := some (((lookupQueue s mainQueueName).get ⟨i, h⟩).retries
              - 1) }).1) mainQueueName).length = f + 1 := by
      rw [hs2, List.length_set, hf]
    have hfuel := processLoop_fuel_irrelevant disp f (f + 1)
      ((updateJob
        (mapSet s mainQueueName ((lookupQueue s mainQueueName).set i
          { (lookupQueue s mainQueueName).get ⟨i, h⟩ with
              retries := ((lookupQueue s mainQueueName).get ⟨i, h⟩).retries - 1 }))
        mainQueueName ((lookupQueue s mainQueueName).get ⟨i, h⟩).id
        { retries := some (((lookupQueue s mainQueueName).get ⟨i, h⟩).retries - 1) }).1)
      (i + 1) (by omega) (by omega)
    have hA : passFrom disp s i =
        ((passFrom disp
            ((updateJob
              (mapSet s mainQueueName ((lookupQueue s mainQueueName).set i
                { (lookupQueue s mainQueueName).get ⟨i, h⟩ with
                    retries := ((lookupQueue s mainQueueName).get ⟨i, h⟩).retries - 1 }))
              mainQueueName ((lookupQueue s mainQueueName).get ⟨i, h⟩).id
              { retries := some (((lookupQueue s mainQueueName).get ⟨i, h⟩).retries
                  - 1) }).1)
            (i + 1)).1,
          (((lookupQueue s mainQueueName).get ⟨i, h⟩).id, Outcome.retry) ::
            (passFrom disp
              ((updateJob
                (mapSet s mainQueueName ((lookupQueue s mainQueueName).set i
                  { (lookupQueue s mainQueueName).get ⟨i, h⟩ with
                      retries := ((lookupQueue s mainQueueName).get ⟨i, h⟩).retries - 1 }))
                mainQueueName ((lookupQueue s mainQueueName).get ⟨i, h⟩).id
                { retries := some (((lookupQueue s mainQueueName).get ⟨i, h⟩).retries
                    - 1) }).1)
              (i + 1)).2) := by
      rw [hstep, passFrom, hlen2, hfuel]
    refine ⟨hA, ?_⟩
    have hA1 : (passFrom disp s i).1 =
        (passFrom disp
          ((updateJob
            (mapSet s mainQueueName ((lookupQueue s mainQueueName).set i
              { (lookupQueue s mainQueueName).get ⟨i, h⟩ with
                  retries := ((lookupQueue s mainQueueName).get ⟨i, h⟩).retries - 1 }))
            mainQueueName ((lookupQueue s mainQueueName).get ⟨i, h⟩).id
            { retries := some (((lookupQueue s mainQueueName).get ⟨i, h⟩).retries
                - 1) }).1)
          (i + 1)).1 := by
      rw [hA]
    have hnd2 : ((lookupQueue
        ((updateJob
          (mapSet s mainQueueName ((lookupQueue s mainQueueName).set i
            { (lookupQueue s mainQueueName).get ⟨i, h⟩ with
                retries := ((lookupQueue s mainQueueName).get ⟨i, h⟩).retries - 1 }))
          mainQueueName ((lookupQueue s mainQueueName).get ⟨i, h⟩).id
          { retries := some (((lookupQueue s mainQueueName).get ⟨i, h⟩).retries
              - 1) }).1) mainQueueName).map Job.id).Nodup := by
      rw [hs2, map_id_set_retry _ i _ _ h rfl]
      exact hnd
    have htake := processLoop_take disp (lookupQueue
        ((updateJob
          (mapSet s mainQueueName ((lookupQueue s mainQueueName).set i
            { (lookupQueue s mainQueueName).get ⟨i, h⟩ with
                retries := ((lookupQueue s mainQueueName).get ⟨i, h⟩).retries - 1 }))
          mainQueueName ((lookupQueue s mainQueueName).get ⟨i, h⟩).id
          { retries := some (((lookupQueue s mainQueueName).get ⟨i, h⟩).retries
              - 1) }).1) mainQueueName).length
      ((updateJob
        (mapSet s mainQueueName ((lookupQueue s mainQueueName).set i
          { (lookupQueue s mainQueueName).get ⟨i, h⟩ with
              retries := ((lookupQueue s mainQueueName).get ⟨i, h⟩).retries - 1 }))
        mainQueueName ((lookupQueue s mainQueueName).get ⟨i, h⟩).id
        { retries := some (((lookupQueue s mainQueueName).get ⟨i, h⟩).retries - 1) }).1)
      (i + 1) hnd2
    have hitake : i < ((lookupQueue
        ((updateJob
          (mapSet s mainQueueName ((lookupQueue s mainQueueName).set i
            { (lookupQueue s mainQueueName).get ⟨i, h⟩ with
                retries := ((lookupQueue s mainQueueName).get ⟨i, h⟩).retries - 1 }))
          mainQueueName ((lookupQueue s mainQueueName).get ⟨i, h⟩).id
          { retries := some (((lookupQueue s mainQueueName).get ⟨i, h⟩).retries
              - 1) }).1) mainQueueName).take (i + 1)).length := by
      rw [List.length_take, hlen2]
      omega
    have hjr_get : ((lookupQueue
        ((updateJob
          (mapSet s mainQueueName ((lookupQueue s mainQueueName).set i
            { (lookupQueue s mainQueueName).get ⟨i, h⟩ with
                retries := ((lookupQueue s mainQueueName).get ⟨i, h⟩).retries - 1 }))
          mainQueueName ((lookupQueue s mainQueueName).get ⟨i, h⟩).id
          { retries := some (((lookupQueue s mainQueueName).get ⟨i, h⟩).retries
              - 1) }).1) mainQueueName).take (i + 1)).get ⟨i, hitake⟩ =
        { (lookupQueue s mainQueueName).get ⟨i, h⟩ with
            retries := ((lookupQueue s mainQueueName).get ⟨i, h⟩).retries - 1 } := by
      rw [List.get_eq_getElem, List.getElem_take, List.getElem_of_eq hs2]
      exact List.getElem_set_self _
    have hmem0 := List.get_mem ((lookupQueue
        ((updateJob
          (mapSet s mainQueueName ((lookupQueue s mainQueueName).set i
            { (lookupQueue s mainQueueName).get ⟨i, h⟩ with
                retries := ((lookupQueue s mainQueueName).get ⟨i, h⟩).retries - 1 }))
          mainQueueName ((lookupQueue s mainQueueName).get ⟨i, h⟩).id
          { retries := some (((lookupQueue s mainQueueName).get ⟨i, h⟩).retries
              - 1) }).1) mainQueueName).take (i + 1)) i hitake
    rw [hjr_get] at hmem0
    have htake2 : (lookupQueue (passFrom disp
        ((updateJob
          (mapSet s mainQueueName ((lookupQueue s mainQueueName).set i
            { (lookupQueue s mainQueueName).get ⟨i, h⟩ with
                retries := ((lookupQueue s mainQueueName).get ⟨i, h⟩).retries - 1 }))
          mainQueueName ((lookupQueue s mainQueueName).get ⟨i, h⟩).id
          { retries := some (((lookupQueue s mainQueueName).get ⟨i, h⟩).retries
              - 1) }).1) (i + 1)).1 mainQueueName).take (i + 1) =
        (lookupQueue
          ((updateJob
            (mapSet s mainQueueName ((lookupQueue s mainQueueName).set i
              { (lookupQueue s mainQueueName).get ⟨i, h⟩ with
                  retries := ((lookupQueue s mainQueueName).get ⟨i, h⟩).retries - 1 }))
            mainQueueName ((lookupQueue s mainQueueName).get ⟨i, h⟩).id
            { retries := some (((lookupQueue s mainQueueName).get ⟨i, h⟩).retries
                - 1) }).1) mainQueueName).take (i + 1) := htake
    rw [hA1]
    refine List.take_subset (i + 1) _ ?_
    rw [htake2]
    exact hmem0
  · intro hr0
    have hrneg : ¬ 0 < ((lookupQueue s mainQueueName).get ⟨i, h⟩).retries := by
      rw [hr0]
      simp
    have hstep : passFrom disp s i =
        ((processLoop disp f (dequeueJob s mainQueueName
            ((lookupQueue s mainQueueName).get ⟨i, h⟩).id) (i + 1)).1,
          (((lookupQueue s mainQueueName).get ⟨i, h⟩).id, Outcome.dropped) ::
            (processLoop disp f (dequeueJob s mainQueueName
              ((lookupQueue s mainQueueName).get ⟨i, h⟩).id) (i + 1)).2) := by
      have hstep0 : passFrom disp s i = processLoop disp (f + 1) s i :=
        processLoop_fuel_irrelevant disp (lookupQueue s mainQueueName).length (f + 1)
          s i (by omega) (by omega)
      rw [hstep0, processLoop_step disp f s i h,
        if_neg (by simp only [List.get_eq_getElem] at hfail; simp [hfail]),
        if_neg hrneg]
    have hs1 : lookupQueue (dequeueJob s mainQueueName
        ((lookupQueue s mainQueueName).get ⟨i, h⟩).id) mainQueueName =
        (lookupQueue s mainQueueName).eraseIdx i := by
      rw [lookupQueue_dequeueJob_self, removeFirstById_nodup_get _ hnd i h]
    have hlen1 : (lookupQueue (dequeueJob s mainQueueName
        ((lookupQueue s mainQueueName).get ⟨i, h⟩).id) mainQueueName).length = f := by
      rw [hs1, List.length_eraseIdx, if_pos h]
      omega
    have hA : passFrom disp s i =
        ((passFrom disp (dequeueJob s mainQueueName
            ((lookupQueue s mainQueueName).get ⟨i, h⟩).id) (i + 1)).1,
          (((lookupQueue s mainQueueName).get ⟨i, h⟩).id, Outcome.dropped) ::
            (passFrom disp (dequeueJob s mainQueueName
              ((lookupQueue s mainQueueName).get ⟨i, h⟩).id) (i + 1)).2) := by
      rw [hstep, passFrom, hlen1]
    refine ⟨hA, ?_, ?_⟩
    · have hA1 : (passFrom disp s i).1 =
          (passFrom disp (dequeueJob s mainQueueName
            ((lookupQueue s mainQueueName).get ⟨i, h⟩).id) (i + 1)).1 := by
        rw [hA]
      rw [hA1]
      intro hmem
      have hsub := processLoop_map_id_sublist disp
        (lookupQueue (dequeueJob s mainQueueName
          ((lookupQueue s mainQueueName).get ⟨i, h⟩).id) mainQueueName).length
        (dequeueJob s mainQueueName ((lookupQueue s mainQueueName).get ⟨i, h⟩).id)
        (i + 1)
      have hmem2 := hsub.subset hmem
      rw [hs1, map_eraseIdx] at hmem2
      exact hnid hmem2
    · have hA2 : (passFrom disp s i).2 =
          (((lookupQueue s mainQueueName).get ⟨i, h⟩).id, Outcome.dropped) ::
            (passFrom disp (dequeueJob s mainQueueName
              ((lookupQueue s mainQueueName).get ⟨i, h⟩).id) (i + 1)).2 := by
        rw [hA]
      rw [hA2, List.countP_cons]
      have hhead : ((fun (e : String × Outcome) =>
          e.1 == ((lookupQueue s mainQueueName).get ⟨i, h⟩).id)
          (((lookupQueue s mainQueueName).get ⟨i, h⟩).id, Outcome.dropped)) = true := by
        simp
      rw [if_pos hhead]
      have hzero : (passFrom disp (dequeueJob s mainQueueName
          ((lookupQueue s mainQueueName).get ⟨i, h⟩).id) (i + 1)).2.countP
          (fun e => e.1 == ((lookupQueue s mainQueueName).get ⟨i, h⟩).id) = 0 := by
        rw [List.countP_eq_zero]
        intro e he hbe
        have hin := processLoop_trace_mem disp
          (lookupQueue (dequeueJob s mainQueueName
            ((lookupQueue s mainQueueName).get ⟨i, h⟩).id) mainQueueName).length
          (dequeueJob s mainQueueName ((lookupQueue s mainQueueName).get ⟨i, h⟩).id)
          (i + 1) e he
        rw [hs1, map_eraseIdx] at hin
        have hbe2 : e.1 = ((lookupQueue s mainQueueName).get ⟨i, h⟩).id := by
          simpa using hbe
        rw [hbe2] at hin
        exact hnid hin
      rw [hzero]

/-- C4 witness: a two-job queue with distinct ids whose first job (2 retries
left) fails dispatch; after the pass the decremented job is still queued. -/
theorem c4_witness :
    ({ jobW1 with retries := 1 } : Job) ∈
      lookupQueue (passFrom (fun jd => jd.data.macAddress == "BB:22")
        [(mainQueueName, [jobW1, jobW2])] 0).1 mainQueueName :=
  ((c4_failure_retry_or_drop (fun jd => jd.data.macAddress == "BB:22")
    [(mainQueueName, [jobW1, jobW2])] 0 (by decide) (by decide) (by decide)).1
    (by decide)).2

/-- C1 evidence (code bug): a pass over a two-job queue in which every
dispatch succeeds emits a single dispatch event (the first job) and leaves
the second job undispatched in the queue: the loop walks the live array by
index while `dequeueJob` splices it, so the job after a removal is skipped
— there is no snapshot. -/
theorem c1_live_iteration_skips_after_removal :
    (lookupQueue (addJob shaId (addJob shaId [] mainQueueName jdA 3 0 0)
        mainQueueName jdB 3 0 1) mainQueueName).length = 2
    ∧ (processQueueTr (fun _ => true) (addJob shaId (addJob shaId [] mainQueueName jdA 3 0 0)
        mainQueueName jdB 3 0 1)).2 =
      [(generateJobId shaId mainQueueName jdA, Outcome.success)]
    ∧ (lookupQueue (processQueueTr (fun _ => true)
        (addJob shaId (addJob shaId [] mainQueueName jdA 3 0 0)
          mainQueueName jdB 3 0 1)).1 mainQueueName).map (fun j => j.data) = [jdB] := by
  decide

/-- C2 evidence (code bug): jobs A (retries 0, fails) and B (would succeed)
enqueued in that order; pass 1 drops A and then terminates without ever
dispatching B, leaving the queue length 1 — not empty as the spec's
testable property demands. -/
theorem c2_partial_failure_leaves_b_queued :
    (processQueueTr (fun jd => jd.data.macAddress == "BB:22")
        (addJob shaId (addJob shaId [] mainQueueName jdA 0 0 0)
          mainQueueName jdB 3 0 1)).2 =
      [(generateJobId shaId mainQueueName jdA, Outcome.dropped)]
    ∧ (lookupQueue (processQueueTr (fun jd => jd.data.macAddress == "BB:22")
        (addJob shaId (addJob shaId [] mainQueueName jdA 0 0 0)
          mainQueueName jdB 3 0 1)).1 mainQueueName).map (fun j => j.data) = [jdB]
    ∧ (lookupQueue (processQueueTr (fun jd => jd.data.macAddress == "BB:22")
        (addJob shaId (addJob shaId [] mainQueueName jdA 0 0 0)
          mainQueueName jdB 3 0 1)).1 mainQueueName).length = 1 := by
  decide

/-- C6 evidence: first scenario — a failing job with retries left does not
abort the pass: the following job is still dispatched (failure isolation
holds for the retained-job path).  Second scenario — a failing job with
zero retries is dequeued mid-iteration, and the following job is then
skipped for that pass, contradicting the claim that every remaining job is
still dispatched. -/
theorem c6_isolation_holds_but_skip_after_drop :
    ((processQueueTr (fun jd => jd.data.macAddress == "DD:44")
        (addJob shaId (addJob shaId [] mainQueueName jdC 1 0 0)
          mainQueueName jdD 3 0 1)).2 =
      [(generateJobId shaId mainQueueName jdC, Outcome.retry),
       (generateJobId shaId mainQueueName jdD, Outcome.success)]
      ∧ (lookupQueue (processQueueTr (fun jd => jd.data.macAddress == "DD:44")
          (addJob shaId (addJob shaId [] mainQueueName jdC 1 0 0)
            mainQueueName jdD 3 0 1)).1 mainQueueName).map Job.retries = [0])
    ∧ ((processQueueTr (fun jd => jd.data.macAddress == "DD:44")
        (addJob shaId (addJob shaId [] mainQueueName jdC 0 0 2)
          mainQueueName jdD 3 0 3)).2 =
      [(generateJobId shaId mainQueueName jdC, Outcome.dropped)]
      ∧ (lookupQueue (processQueueTr (fun jd => jd.data.macAddress == "DD:44")
          (addJob shaId (addJob shaId [] mainQueueName jdC 0 0 2)
            mainQueueName jdD 3 0 3)).1 mainQueueName).map (fun j => j.data) = [jdD]) := by
  decide

/-- C3 counterexample: a job enqueued with retries = 3 failing on every pass
is still present after pass 3 (with retries 0) — the claim says it is
absent — and only pass 4 empties the queue. -/
theorem c3_counterexample_present_after_pass3 :
    (lookupQueue (processQueue (fun _ => false) (processQueue (fun _ => false)
        (processQueue (fun _ => false)
          (addJob shaId [] mainQueueName jdD 3 0 0)))) mainQueueName).map
      Job.retries = [0]
    ∧ lookupQueue (processQueue (fun _ => false) (processQueue (fun _ => false)
        (processQueue (fun _ => false) (processQueue (fun _ => false)
          (addJob shaId [] mainQueueName jdD 3 0 0))))) mainQueueName = [] := by
  decide

/-- C3 (amended): a job enqueued with retries = 3 whose dispatch fails on
every pass is in the queue after pass 1 with retries 2 and after pass 2
with retries 1, as claimed; but it is still in the queue after pass 3
(with retries 0) and only absent after pass 4, because the pass decrements
while `retries > 0` and dequeues only when a dispatch fails at
`retries = 0`. -/
theorem c3_amended_retry_schedule (sha : String → String) (jd : JobData) (d : Int)
    (t : Nat) (disp : JobData → Bool) (hfail : disp jd = false) :
    (lookupQueue (processQueue disp (addJob sha [] mainQueueName jd 3 d t))
        mainQueueName).map Job.retries = [2]
    ∧ (lookupQueue (processQueue disp (processQueue disp
        (addJob sha [] mainQueueName jd 3 d t))) mainQueueName).map Job.retries = [1]
    ∧ (lookupQueue (processQueue disp (processQueue disp (processQueue disp
        (addJob sha [] mainQueueName jd 3 d t)))) mainQueueName).map Job.retries = [0]
    ∧ lookupQueue (processQueue disp (processQueue disp (processQueue disp
        (processQueue disp (addJob sha [] mainQueueName jd 3 d t)))))
        mainQueueName = [] := by
  have h0 : lookupQueue (addJob sha [] mainQueueName jd 3 d t) mainQueueName =
      [createJob sha mainQueueName jd 3 d t] := by
    rw [lookupQueue_addJob_self, lookupQueue_nil, if_neg (by simp)]
    simp
  have h1 := pass_singleton_fail disp _ _ h0 hfail
  rw [if_pos (by norm_num [createJob])] at h1
  have h2 := pass_singleton_fail disp _ _ h1 hfail
  rw [if_pos (by norm_num [createJob])] at h2
  have h3 := pass_singleton_fail disp _ _ h2 hfail
  rw [if_pos (by norm_num [createJob])] at h3
  have h4 := pass_singleton_fail disp _ _ h3 hfail
  rw [if_neg (by norm_num [createJob])] at h4
  refine ⟨?_, ?_, ?_, h4⟩
  · rw [h1]
    norm_num [createJob]
  · rw [h2]
    norm_num [createJob]
  · rw [h3]
    norm_num [createJob]

/-- C3 amended witness: the schedule at a concrete payload and digest. -/
theorem c3_amended_witness :
    (lookupQueue (processQueue (fun _ => false)
        (addJob shaId [] mainQueueName jdB 3 0 0)) mainQueueName).map
      Job.retries = [2] :=
  (c3_amended_retry_schedule shaId jdB 0 0 (fun _ => false) rfl).1

/-- C8 counterexample: `updateJob` accepts an `id` field in its partial
update; rewriting one job's id to another job's id breaks the unique-id
invariant, so the invariant does not survive every sequence of public
operations. -/
theorem c8_counterexample_update_id :
    ¬ ((lookupQueue (runOps shaId
        [QueueOp.add mainQueueName jdA 3 0 0,
         QueueOp.add mainQueueName jdB 3 0 1,
         QueueOp.update mainQueueName (generateJobId shaId mainQueueName jdB)
           { id := some (generateJobId shaId mainQueueName jdA) }])
        mainQueueName).map Job.id).Nodup := by
  decide

/-- C8 (amended): over every sequence of public operations from the empty
store in which no `updateJob` call carries an `id` field in its partial
update (the repository only ever updates `retries`), every queue's job ids
stay pairwise distinct: `addJob` refuses duplicates and no other operation
introduces one. -/
theorem c8_amended_unique_ids (sha : String → String) (ops : List QueueOp)
    (hb : ops.all benignOp = true) (q : String) :
    ((lookupQueue (runOps sha ops) q).map Job.id).Nodup := by
  unfold runOps
  refine foldl_preserves_nodup sha ops [] hb ?_ q
  intro q2
  rw [lookupQueue_nil]
  simp

/-- C8 amended witness: a concrete benign operation sequence exercising all
five operations keeps ids unique. -/
theorem c8_amended_witness :
    ((lookupQueue (runOps shaId
        [QueueOp.add mainQueueName jdA 3 0 0,
         QueueOp.add mainQueueName jdA 0 5 2,
         QueueOp.update mainQueueName (generateJobId shaId mainQueueName jdA)
           { retries := some 1 },
         QueueOp.dequeue mainQueueName (generateJobId shaId mainQueueName jdB),
         QueueOp.next mainQueueName,
         QueueOp.has mainQueueName "zz"])
        mainQueueName).map Job.id).Nodup :=
  c8_amended_unique_ids shaId _ (by decide) mainQueueName

end QueueSpec
